import Mathlib

/-!
Verification of the FlowSight analysis engine against its specification.

The Rust sources under crates/flowsight-analysis and crates/flowsight-core are
shallowly embedded below: pure functions become Lean functions, struct state is
passed explicitly, HashMap/HashSet state is represented by association lists
and duplicate-free lists (iteration order is fixed to insertion order; the Rust
hash containers leave it unspecified, and no embedded result depends on it),
and i64 is modelled by Int (no claim below exercises i64 overflow, division is
Int.tdiv / Int.tmod matching Rust's truncating semantics).  Recursive walks
over strings and trees take an explicit fuel argument; every entry point
supplies fuel exceeding the structural depth, so the fuel never runs out.
-/

/-- Abbreviations used inside inductives whose constructors shadow the
corresponding builtin type names. -/
abbrev BoolT := Bool
abbrev StrT := String

/-! ## Core data model (crates/flowsight-core/src/location.rs, types.rs) -/

/-- Location embeds flowsight-core Location: file path, 1-based start line,
0-based column, end line and end column. -/
structure Location where
  file : String
  line : Nat
  column : Nat
  end_line : Nat
  end_column : Nat
deriving DecidableEq, Repr

/-- Location.new mirrors Location::new(file, line, column): the end position
collapses onto the start. -/
def Location.new (file : String) (line column : Nat) : Location :=
  { file := file, line := line, column := column, end_line := line, end_column := column }

instance : Inhabited Location :=
  ⟨{ file := "", line := 0, column := 0, end_line := 0, end_column := 0 }⟩

/-- Parameter embeds flowsight-core Parameter. -/
structure Parameter where
  name : String
  type_name : String
deriving DecidableEq, Repr

/-- FunctionDef embeds flowsight-core FunctionDef. -/
structure FunctionDef where
  name : String
  return_type : String
  params : List Parameter
  location : Option Location
  calls : List String
  called_by : List String
  is_callback : Bool
  callback_context : Option String
  attributes : List String
deriving DecidableEq, Repr

/-- AsyncMechanism embeds flowsight-core AsyncMechanism. -/
inductive AsyncMechanism where
  | WorkQueue (delayed : Bool)
  | Timer (high_resolution : Bool)
  | Interrupt (threaded : Bool)
  | Tasklet
  | Softirq
  | KThread
  | RcuCallback
  | Notifier
  | Custom (name : String)
deriving DecidableEq, Repr

/-- ExecutionContext embeds flowsight-core ExecutionContext. -/
inductive ExecutionContext where
  | Process
  | SoftIrq
  | HardIrq
  | Unknown
deriving DecidableEq, Repr

/-- AsyncBinding embeds flowsight-core AsyncBinding. -/
structure AsyncBinding where
  mechanism : AsyncMechanism
  variable_ : String
  handler : String
  bind_location : Option Location
  trigger_locations : List Location
  context : ExecutionContext
deriving DecidableEq, Repr

/-! ## String utilities

List-of-characters helpers mirroring the Rust `str` primitives used by the
embedded code (trim, starts_with, contains, find, replace, byte indexing).
All inputs exercised by the claims are ASCII, so the ASCII whitespace and
alphabetic classes coincide with Rust's Unicode-aware ones on these inputs. -/

def isWsC (c : Char) : Bool :=
  decide (c = ' ' ∨ c = '\t' ∨ c = '\n' ∨ c = '\r')

def isAsciiDigitC (c : Char) : Bool :=
  decide ('0' ≤ c ∧ c ≤ '9')

def isAsciiAlphaC (c : Char) : Bool :=
  decide (('a' ≤ c ∧ c ≤ 'z') ∨ ('A' ≤ c ∧ c ≤ 'Z'))

def isWordC (c : Char) : Bool :=
  isAsciiAlphaC c ∨ isAsciiDigitC c ∨ c = '_'

/-- trimList mirrors str::trim. -/
def trimList (l : List Char) : List Char :=
  ((l.dropWhile isWsC).reverse.dropWhile isWsC).reverse

/-- charAt mirrors byte indexing bytes[i] (the scanners only index in bounds;
out of bounds yields a space, which matches no operator). -/
def charAt (e : List Char) (i : Nat) : Char :=
  e.getD i ' '

/-- startsWithAt mirrors bytes[i..].starts_with(op). -/
def startsWithAt (e op : List Char) (i : Nat) : Bool :=
  op.isPrefixOf (e.drop i)

/-- findSubAux scans left to right for the first index where sub is a prefix. -/
def findSubAux (e sub : List Char) : Nat → List Char → Option Nat
  | _, [] => if sub.isEmpty then some e.length else none
  | i, c :: rest =>
    if sub.isPrefixOf (c :: rest) then some i else findSubAux e sub (i + 1) rest

/-- findSub mirrors str::find(substring). -/
def findSub (e sub : List Char) : Option Nat :=
  if sub.isEmpty then some 0 else findSubAux e sub 0 e

/-- listContainsSub mirrors str::contains(substring). -/
def listContainsSub (e sub : List Char) : Bool :=
  (findSub e sub).isSome

def strContains (s sub : String) : Bool :=
  listContainsSub s.toList sub.toList

/-- rfindCharAux returns the largest index at which c occurs. -/
def rfindCharAux (c : Char) : List Char → Option Nat
  | [] => none
  | x :: rest =>
    match rfindCharAux c rest with
    | some j => some (j + 1)
    | none => if x = c then some 0 else none

/-- rfindChar mirrors str::rfind(char). -/
def rfindChar (e : List Char) (c : Char) : Option Nat :=
  rfindCharAux c e

/-- replaceAllGo performs str::replace steps with fuel; each step consumes at
least one character, so fuel = length of the input always suffices (the
embedded code never replaces with an empty pattern). -/
def replaceAllGo (pat repl : List Char) : Nat → List Char → List Char
  | 0, l => l
  | _ + 1, [] => []
  | fuel + 1, c :: rest =>
    if ¬ pat.isEmpty ∧ pat.isPrefixOf (c :: rest) then
      repl ++ replaceAllGo pat repl fuel ((c :: rest).drop pat.length)
    else
      c :: replaceAllGo pat repl fuel rest

/-- replaceAll mirrors str::replace: all non-overlapping occurrences, left to
right. -/
def replaceAll (e pat repl : List Char) : List Char :=
  replaceAllGo pat repl e.length e

def strReplace (s pat repl : String) : String :=
  String.mk (replaceAll s.toList pat.toList repl.toList)

/-- asciiLowerC mirrors u8::to_ascii_lowercase. -/
def asciiLowerC (c : Char) : Char :=
  if 'A' ≤ c ∧ c ≤ 'Z' then Char.ofNat (c.toNat + 32) else c

/-- eqIgnoreAsciiCase mirrors str::eq_ignore_ascii_case. -/
def eqIgnoreAsciiCase (a b : List Char) : Bool :=
  decide (a.map asciiLowerC = b.map asciiLowerC)

def I64MAX : Int := 2 ^ 63 - 1
def I64MIN : Int := -(2 ^ 63)

/-- digitValIn gives the value of c as a digit of the given radix. -/
def digitValIn (radix : Nat) (c : Char) : Option Nat :=
  let v :=
    if isAsciiDigitC c then some (c.toNat - '0'.toNat)
    else if 'a' ≤ c ∧ c ≤ 'f' then some (c.toNat - 'a'.toNat + 10)
    else if 'A' ≤ c ∧ c ≤ 'F' then some (c.toNat - 'A'.toNat + 10)
    else none
  match v with
  | some n => if n < radix then some n else none
  | none => none

def parseDigitsAux (radix : Nat) : List Char → Nat → Option Nat
  | [], acc => some acc
  | c :: rest, acc =>
    match digitValIn radix c with
    | some d => parseDigitsAux radix rest (acc * radix + d)
    | none => none

/-- parseRadixI64 mirrors i64::from_str_radix (and, for radix 10, str::parse
into i64): optional sign, at least one digit, result within i64 bounds. -/
def parseRadixI64 (radix : Nat) (e : List Char) : Option Int :=
  let (neg, digits) :=
    match e with
    | '-' :: rest => (true, rest)
    | '+' :: rest => (false, rest)
    | l => (false, l)
  if digits.isEmpty then none
  else
    match parseDigitsAux radix digits 0 with
    | some n =>
      let v : Int := if neg then -(n : Int) else (n : Int)
      if I64MIN ≤ v ∧ v ≤ I64MAX then some v else none
    | none => none

/-! ## Scenario symbolic values (crates/flowsight-analysis/src/scenario.rs) -/

/-- SymbolicValue embeds scenario.rs SymbolicValue. -/
inductive SymbolicValue where
  | Integer (n : Int)
  | String (s : StrT)
  | Pointer (is_null : BoolT) (size : Option Nat)
  | Range (min max : Int)
  | Unknown (hint : Option StrT)
deriving DecidableEq, Repr

/-- natToHex renders n in lowercase hexadecimal (mirrors the {:x} format). -/
def natToHex (n : Nat) : String :=
  String.mk (Nat.toDigits 16 n)

/-- SymbolicValue.display embeds scenario.rs SymbolicValue::display. -/
def SymbolicValue.display : SymbolicValue → StrT
  | .Integer n =>
    if n > 255 then "0x" ++ natToHex n.toNat else toString n
  | .String s => "\"" ++ s ++ "\""
  | .Pointer is_null size =>
    if is_null then "NULL"
    else
      match size with
      | some sz => "<ptr: " ++ toString sz ++ " bytes>"
      | none => "<valid ptr>"
  | .Range min max => toString min ++ ".." ++ toString max
  | .Unknown hint =>
    match hint with
    | some h => "<?:" ++ h ++ ">"
    | none => "?"

/-! ## Expression evaluator (crates/flowsight-analysis/src/evaluator.rs) -/

/-- EvalResult embeds evaluator.rs EvalResult. -/
inductive EvalResult where
  | Integer (n : Int)
  | Bool (b : BoolT)
  | String (s : StrT)
  | Pointer (is_null : BoolT)
  | Unknown
deriving DecidableEq, Repr

/-- EvalResult.is_truthy embeds EvalResult::is_truthy. -/
def EvalResult.is_truthy : EvalResult → Option BoolT
  | .Integer n => some (decide (n ≠ 0))
  | .Bool b => some b
  | .Pointer is_null => some (!is_null)
  | .Unknown => none
  | .String s => some (!s.isEmpty)

/-- EvalResult.to_i64 embeds EvalResult::to_i64. -/
def EvalResult.to_i64 : EvalResult → Option Int
  | .Integer n => some n
  | .Bool b => some (if b then 1 else 0)
  | _ => none

/-- EvalResult.ofSymbolic embeds impl From<&SymbolicValue> for EvalResult.
A Range is represented by its midpoint (i64 division truncates). -/
def EvalResult.ofSymbolic : SymbolicValue → EvalResult
  | .Integer n => .Integer n
  | .String s => .String s
  | .Pointer is_null _ => .Pointer is_null
  | .Range min max => .Integer ((min + max).tdiv 2)
  | .Unknown _ => .Unknown

namespace Evaluator

/-- Env embeds the Evaluator's bindings map (insertion-ordered). -/
abbrev Env := List (String × SymbolicValue)

/-- lookup_variable embeds Evaluator::lookup_variable: direct hit, then the
arrow-to-dot normalised path, then a scan of all bindings comparing normalised
keys and accepting a ".path" suffix match. -/
def lookup_variable (env : Env) (path : String) : Option SymbolicValue :=
  match env.find? (fun p => p.1 = path) with
  | some p => some p.2
  | none =>
    let normalized := strReplace path "->" "."
    match env.find? (fun p => p.1 = normalized) with
    | some p => some p.2
    | none =>
      env.findSome? (fun p =>
        let key_normalized := strReplace p.1 "->" "."
        if key_normalized = normalized then some p.2
        else if ("." ++ path).toList.isSuffixOf key_normalized.toList then some p.2
        else none)

/-- is_valid_identifier embeds Evaluator::is_valid_identifier. -/
def isValidIdentBody : List Char → Bool
  | [] => true
  | c :: rest =>
    if isAsciiAlphaC c ∨ isAsciiDigitC c ∨ c = '_' ∨ c = '.' then isValidIdentBody rest
    else if c = '-' then
      match rest with
      | '>' :: rest' => isValidIdentBody rest'
      | _ => false
    else false

def is_valid_identifier (e : List Char) : Bool :=
  match e with
  | [] => false
  | c :: _ =>
    if ¬(isAsciiAlphaC c ∨ c = '_') then false
    else isValidIdentBody e

/-- extractParensGo walks the characters tracking paren depth; it fails when
the depth returns to zero before the final character. -/
def extractParensGo (len : Nat) : List Char → Nat → Int → Bool
  | [], _, _ => true
  | c :: rest, i, depth =>
    if c = '(' then extractParensGo len rest (i + 1) (depth + 1)
    else if c = ')' then
      if depth - 1 = 0 ∧ i < len - 1 then false
      else extractParensGo len rest (i + 1) (depth - 1)
    else extractParensGo len rest (i + 1) depth

/-- extract_parens embeds Evaluator::extract_parens. -/
def extract_parens (e : List Char) : Option (List Char) :=
  if ¬(charAt e 0 = '(' ∧ e.getLast? = some ')') then none
  else if extractParensGo e.length e 0 0 then some ((e.drop 1).dropLast)
  else none

/-- stepDepth updates the right-to-left paren depth after examining index i. -/
def stepDepth (e : List Char) (i : Nat) (depth : Int) : Int :=
  if charAt e i = ')' then depth + 1
  else if charAt e i = '(' then depth - 1
  else depth

/-- adjSkip embeds the four adjacency checks inside try_binary_op that keep a
lone | or & from matching inside || or &&. -/
def adjSkip (e op : List Char) (i : Nat) : Bool :=
  (op = ['|'] ∧ i > 0 ∧ charAt e (i - 1) = '|') ∨
  (op = ['&'] ∧ i > 0 ∧ charAt e (i - 1) = '&') ∨
  (op = ['|'] ∧ i + 1 < e.length ∧ charAt e (i + 1) = '|') ∨
  (op = ['&'] ∧ i + 1 < e.length ∧ charAt e (i + 1) = '&')

/-- binSplitAt evaluates the split of e at index i for an operator of the given
length, provided both sides are non-empty. -/
def binSplitAt (ev : List Char → EvalResult) (e : List Char) (oplen : Nat)
    (f : EvalResult → EvalResult → EvalResult) (i : Nat) : Option EvalResult :=
  let left := e.take i
  let right := e.drop (i + oplen)
  if left.isEmpty ∨ right.isEmpty then none
  else some (f (ev left) (ev right))

/-- binHit attempts the try_binary_op match at one index. -/
def binHit (ev : List Char → EvalResult) (e op : List Char)
    (f : EvalResult → EvalResult → EvalResult) (i : Nat) (depth : Int) : Option EvalResult :=
  if charAt e i = ')' ∨ charAt e i = '(' then none
  else if depth = 0 ∧ startsWithAt e op i ∧ ¬ adjSkip e op i then
    binSplitAt ev e op.length f i
  else none

/-- tryBinaryOpAux scans indices i, i-1, ..., 0 (right to left as in the Rust
for-loop over a reversed range). -/
def tryBinaryOpAux (ev : List Char → EvalResult) (e op : List Char)
    (f : EvalResult → EvalResult → EvalResult) : Nat → Int → Option EvalResult
  | 0, depth => binHit ev e op f 0 depth
  | j + 1, depth =>
    match binHit ev e op f (j + 1) depth with
    | some r => some r
    | none => tryBinaryOpAux ev e op f j (stepDepth e (j + 1) depth)

/-- try_binary_op embeds Evaluator::try_binary_op: scan the range
0..len.saturating_sub(op.len()-1) from the right at paren depth zero. -/
def try_binary_op (ev : List Char → EvalResult) (e op : List Char)
    (f : EvalResult → EvalResult → EvalResult) : Option EvalResult :=
  let n := e.length - (op.length - 1)
  if n = 0 then none else tryBinaryOpAux ev e op f (n - 1) 0

/-- intOpWrap turns an i64 binary operation into the EvalResult combiner used
by try_binary_int_op. -/
def intOpWrap (g : Int → Int → Int) (a b : EvalResult) : EvalResult :=
  match a.to_i64, b.to_i64 with
  | some x, some y => .Integer (g x y)
  | _, _ => .Unknown

/-- try_binary_int_op embeds Evaluator::try_binary_int_op. -/
def try_binary_int_op (ev : List Char → EvalResult) (e op : List Char)
    (g : Int → Int → Int) : Option EvalResult :=
  try_binary_op ev e op (intOpWrap g)

/-- bitHit attempts the try_bitwise_op match at one index: the operator byte at
depth zero, not adjacent to another copy of itself.  A successful split whose
sides are not both integers yields Unknown (the Rust code returns there). -/
def bitHit (ev : List Char → EvalResult) (e : List Char) (opc : Char)
    (g : Int → Int → Int) (i : Nat) (depth : Int) : Option EvalResult :=
  if charAt e i = ')' ∨ charAt e i = '(' then none
  else if depth = 0 ∧ charAt e i = opc ∧
      ¬(i > 0 ∧ charAt e (i - 1) = opc) ∧ ¬(i + 1 < e.length ∧ charAt e (i + 1) = opc) then
    binSplitAt ev e 1 (intOpWrap g) i
  else none

def tryBitwiseOpAux (ev : List Char → EvalResult) (e : List Char) (opc : Char)
    (g : Int → Int → Int) : Nat → Int → Option EvalResult
  | 0, depth => bitHit ev e opc g 0 depth
  | j + 1, depth =>
    match bitHit ev e opc g (j + 1) depth with
    | some r => some r
    | none => tryBitwiseOpAux ev e opc g j (stepDepth e (j + 1) depth)

/-- try_bitwise_op embeds Evaluator::try_bitwise_op. -/
def try_bitwise_op (ev : List Char → EvalResult) (e : List Char) (opc : Char)
    (g : Int → Int → Int) : Option EvalResult :=
  match e.length with
  | 0 => none
  | n + 1 => tryBitwiseOpAux ev e opc g n 0

/-- shiftHit attempts the try_shift_op match at one index (no adjacency
checks; the right side starts at i+2 as in the Rust code). -/
def shiftHit (ev : List Char → EvalResult) (e op : List Char)
    (g : Int → Int → Int) (i : Nat) (depth : Int) : Option EvalResult :=
  if charAt e i = ')' ∨ charAt e i = '(' then none
  else if depth = 0 ∧ startsWithAt e op i then
    binSplitAt ev e 2 (intOpWrap g) i
  else none

def tryShiftOpAux (ev : List Char → EvalResult) (e op : List Char)
    (g : Int → Int → Int) : Nat → Int → Option EvalResult
  | 0, depth => shiftHit ev e op g 0 depth
  | j + 1, depth =>
    match shiftHit ev e op g (j + 1) depth with
    | some r => some r
    | none => tryShiftOpAux ev e op g j (stepDepth e (j + 1) depth)

/-- try_shift_op embeds Evaluator::try_shift_op: scan range
0..len.saturating_sub(1) from the right. -/
def try_shift_op (ev : List Char → EvalResult) (e op : List Char)
    (g : Int → Int → Int) : Option EvalResult :=
  let n := e.length - 1
  if n = 0 then none else tryShiftOpAux ev e op g (n - 1) 0

/-- rtlHit attempts the try_binary_int_op_rtl match at one index: a + or -
equal to the operator byte, at depth zero, not preceded by e/E. -/
def rtlHit (ev : List Char → EvalResult) (e : List Char) (opc : Char)
    (g : Int → Int → Int) (i : Nat) (depth : Int) : Option EvalResult :=
  if charAt e i = ')' ∨ charAt e i = '(' then none
  else if (charAt e i = '+' ∨ charAt e i = '-') ∧ depth = 0 ∧ charAt e i = opc then
    if i > 0 ∧ (charAt e (i - 1) = 'e' ∨ charAt e (i - 1) = 'E') then none
    else binSplitAt ev e 1 (intOpWrap g) i
  else none

/-- tryRtlAux scans indices down to 1 (the Rust range starts at 1, so a leading
sign is never a split point). -/
def tryRtlAux (ev : List Char → EvalResult) (e : List Char) (opc : Char)
    (g : Int → Int → Int) : Nat → Int → Option EvalResult
  | 0, _ => none
  | j + 1, depth =>
    match rtlHit ev e opc g (j + 1) depth with
    | some r => some r
    | none => tryRtlAux ev e opc g j (stepDepth e (j + 1) depth)

/-- try_binary_int_op_rtl embeds Evaluator::try_binary_int_op_rtl. -/
def try_binary_int_op_rtl (ev : List Char → EvalResult) (e : List Char) (opc : Char)
    (g : Int → Int → Int) : Option EvalResult :=
  match e.length with
  | 0 => none
  | n + 1 => tryRtlAux ev e opc g n 0

/-- compare_values embeds Evaluator::compare_values. -/
def compare_values (a b : EvalResult) (op : String) : EvalResult :=
  match a.to_i64, b.to_i64 with
  | some x, some y =>
    if op = "==" then .Bool (decide (x = y))
    else if op = "!=" then .Bool (decide (x ≠ y))
    else if op = "<" then .Bool (decide (x < y))
    else if op = ">" then .Bool (decide (x > y))
    else if op = "<=" then .Bool (decide (x ≤ y))
    else if op = ">=" then .Bool (decide (x ≥ y))
    else .Unknown
  | _, _ =>
    match a, b with
    | .Pointer a_null, .Pointer b_null =>
      if op = "==" then .Bool (decide (a_null = b_null))
      else if op = "!=" then .Bool (decide (a_null ≠ b_null))
      else .Unknown
    | .Pointer is_null, .Integer 0 =>
      if op = "==" then .Bool is_null
      else if op = "!=" then .Bool (!is_null)
      else .Unknown
    | .Integer 0, .Pointer is_null =>
      if op = "==" then .Bool is_null
      else if op = "!=" then .Bool (!is_null)
      else .Unknown
    | _, _ => .Unknown

/-- cmpSkip embeds the skip conditions in try_comparison: a > preceded by -
(member access), and a < or > that is part of << or >>. -/
def cmpSkip (e op : List Char) (i : Nat) : Bool :=
  (op = ['>'] ∧ i > 0 ∧ charAt e (i - 1) = '-') ∨
  (op = ['<'] ∧ i + 1 < e.length ∧ charAt e (i + 1) = '<') ∨
  (op = ['>'] ∧ i + 1 < e.length ∧ charAt e (i + 1) = '>') ∨
  (op = ['<'] ∧ i > 0 ∧ charAt e (i - 1) = '<') ∨
  (op = ['>'] ∧ i > 0 ∧ charAt e (i - 1) = '>')

/-- cmpHit attempts the try_comparison match at one index. -/
def cmpHit (ev : List Char → EvalResult) (e op : List Char) (i : Nat) (depth : Int) :
    Option EvalResult :=
  if charAt e i = ')' ∨ charAt e i = '(' then none
  else if depth = 0 ∧ startsWithAt e op i ∧ ¬ cmpSkip e op i then
    binSplitAt ev e op.length (fun a b => compare_values a b (String.mk op)) i
  else none

def tryComparisonAux (ev : List Char → EvalResult) (e op : List Char) :
    Nat → Int → Option EvalResult
  | 0, depth => cmpHit ev e op 0 depth
  | j + 1, depth =>
    match cmpHit ev e op (j + 1) depth with
    | some r => some r
    | none => tryComparisonAux ev e op j (stepDepth e (j + 1) depth)

/-- try_comparison embeds Evaluator::try_comparison. -/
def try_comparison (ev : List Char → EvalResult) (e op : List Char) : Option EvalResult :=
  let n := e.length - (op.length - 1)
  if n = 0 then none else tryComparisonAux ev e op (n - 1) 0

/-- i64Shl models the Rust i64 << used in the evaluator; the claims only
exercise in-range shift amounts, where it agrees with the machine shift. -/
def i64Shl (a b : Int) : Int := a * 2 ^ b.toNat

/-- i64Shr models the Rust i64 >> (arithmetic shift = floor division). -/
def i64Shr (a b : Int) : Int := Int.fdiv a (2 ^ b.toNat)

/-- divOp embeds the division closure: if b != 0 then a / b else 0
(Rust / truncates toward zero, i.e. Int.tdiv). -/
def divOp (a b : Int) : Int := if b ≠ 0 then a.tdiv b else 0

/-- modOp embeds the remainder closure: if b != 0 then a % b else 0. -/
def modOp (a b : Int) : Int := if b ≠ 0 then a.tmod b else 0

/-- orFn embeds the short-circuit || folding closure. -/
def orFn (a b : EvalResult) : EvalResult :=
  match a.is_truthy, b.is_truthy with
  | some true, _ => .Bool true
  | _, some true => .Bool true
  | some false, some false => .Bool false
  | _, _ => .Unknown

/-- andFn embeds the short-circuit && folding closure. -/
def andFn (a b : EvalResult) : EvalResult :=
  match a.is_truthy, b.is_truthy with
  | some false, _ => .Bool false
  | _, some false => .Bool false
  | some true, some true => .Bool true
  | _, _ => .Unknown

/-- eval_atom embeds Evaluator::eval_atom. -/
def eval_atom (env : Env) (e0 : List Char) : EvalResult :=
  let e := trimList e0
  if eqIgnoreAsciiCase e "null".toList ∨ e = "nullptr".toList ∨ e = "NULL".toList then
    .Pointer true
  else if e = "true".toList then .Bool true
  else if e = "false".toList then .Bool false
  else
    let hex :=
      if "0x".toList.isPrefixOf e ∨ "0X".toList.isPrefixOf e then
        (parseRadixI64 16 (e.drop 2)).map EvalResult.Integer
      else none
    match hex with
    | some r => r
    | none =>
      let bin :=
        if "0b".toList.isPrefixOf e ∨ "0B".toList.isPrefixOf e then
          (parseRadixI64 2 (e.drop 2)).map EvalResult.Integer
        else none
      match bin with
      | some r => r
      | none =>
        match parseRadixI64 10 e with
        | some n => .Integer n
        | none =>
          if charAt e 0 = '"' ∧ e.getLast? = some '"' then
            .String (String.mk ((e.drop 1).dropLast))
          else
            match lookup_variable env (String.mk e) with
            | some v => EvalResult.ofSymbolic v
            | none => .Unknown

/-- eval_expr embeds Evaluator::eval_expr.  The fuel argument bounds the
recursion depth; every recursive call receives a strictly shorter character
list, so fuel = length + 1 (as supplied by eval) always suffices. -/
def eval_expr (env : Env) : Nat → List Char → EvalResult
  | 0, _ => .Unknown
  | fuel + 1, e0 =>
    let e := trimList e0
    let ev := eval_expr env fuel
    let paren : Option (List Char) :=
      if charAt e 0 = '(' ∧ e.getLast? = some ')' then extract_parens e else none
    match paren with
    | some inner => ev inner
    | none =>
      let ident : Option SymbolicValue :=
        if is_valid_identifier e then lookup_variable env (String.mk e) else none
      match ident with
      | some v => EvalResult.ofSymbolic v
      | none =>
        let binres : Option EvalResult :=
          (try_binary_op ev e "||".toList orFn) <|>
          (try_binary_op ev e "&&".toList andFn) <|>
          (try_comparison ev e "==".toList) <|>
          (try_comparison ev e "!=".toList) <|>
          (try_comparison ev e "<=".toList) <|>
          (try_comparison ev e ">=".toList) <|>
          (try_shift_op ev e "<<".toList i64Shl) <|>
          (try_shift_op ev e ">>".toList i64Shr) <|>
          (try_comparison ev e "<".toList) <|>
          (try_comparison ev e ">".toList) <|>
          (try_bitwise_op ev e '|' Int.lor) <|>
          (try_binary_int_op ev e "^".toList Int.xor) <|>
          (try_bitwise_op ev e '&' Int.land) <|>
          (try_binary_int_op_rtl ev e '+' (· + ·)) <|>
          (try_binary_int_op_rtl ev e '-' (· - ·)) <|>
          (try_binary_int_op ev e "*".toList (· * ·)) <|>
          (try_binary_int_op ev e "/".toList divOp) <|>
          (try_binary_int_op ev e "%".toList modOp)
        match binres with
        | some r => r
        | none =>
          if charAt e 0 = '!' ∧ ¬ e.isEmpty then
            match (ev (e.drop 1)).is_truthy with
            | some b => .Bool (!b)
            | none => .Unknown
          else if charAt e 0 = '~' ∧ ¬ e.isEmpty then
            match (ev (e.drop 1)).to_i64 with
            | some n => .Integer (-n - 1)
            | none => .Unknown
          else if charAt e 0 = '-' ∧ ¬ e.isEmpty ∧
              (match e.drop 1 with | c :: _ => isAsciiDigitC c | [] => false) = false then
            match (ev (e.drop 1)).to_i64 with
            | some n => .Integer (-n)
            | none => .Unknown
          else eval_atom env e

/-- eval embeds Evaluator::eval: trim, return Unknown on empty, evaluate. -/
def eval (env : Env) (s : String) : EvalResult :=
  let e := trimList s.toList
  if e.isEmpty then .Unknown
  else eval_expr env (e.length + 1) e

/-- eval_condition embeds Evaluator::eval_condition. -/
def eval_condition (env : Env) (condition : String) : Option Bool :=
  (eval env condition).is_truthy

end Evaluator

/-! ## Constant propagation (crates/flowsight-analysis/src/propagation.rs) -/

/-- BranchResult embeds propagation.rs BranchResult. -/
inductive BranchResult where
  | AlwaysTrue
  | AlwaysFalse
  | Unknown
deriving DecidableEq, Repr

/-- assocSet mirrors HashMap::insert on an insertion-ordered association
list: overwrite an existing key in place, otherwise append. -/
def assocSet {α : Type} (m : List (String × α)) (k : String) (v : α) :
    List (String × α) :=
  if (m.find? (fun p => p.1 = k)).isSome then
    m.map (fun p => if p.1 = k then (k, v) else p)
  else m ++ [(k, v)]

/-- assocGet mirrors HashMap::get. -/
def assocGet {α : Type} (m : List (String × α)) (k : String) : Option α :=
  (m.find? (fun p => p.1 = k)).map (fun p => p.2)

/-- ConstantPropagator embeds propagation.rs ConstantPropagator: the vars map
and the wrapped evaluator's bindings (kept in sync by every mutation in the
source). -/
structure ConstantPropagator where
  vars : List (String × SymbolicValue)
  evaluator : Evaluator.Env
deriving DecidableEq, Repr

namespace ConstantPropagator

/-- init_from_bindings embeds ConstantPropagator::init_from_bindings. -/
def init_from_bindings (bindings : List (String × SymbolicValue)) : ConstantPropagator :=
  bindings.foldl
    (fun cp b => { vars := assocSet cp.vars b.1 b.2, evaluator := assocSet cp.evaluator b.1 b.2 })
    { vars := [], evaluator := [] }

def strTrim (s : String) : String :=
  String.mk (trimList s.toList)

/-- extract_var_from_check embeds ConstantPropagator::extract_var_from_check. -/
def extract_var_from_check (cond op : String) : Option String :=
  (findSub cond.toList op.toList).map (fun pos => strTrim (String.mk (cond.toList.take pos)))

/-- parse_comparison embeds ConstantPropagator::parse_comparison: the first
operator (in the fixed order) that occurs in the string is used; a value that
fails to parse aborts with none. -/
def parse_comparison (cond : String) : Option (String × String × Int) :=
  let ops : List String := ["<=", ">=", "==", "!=", "<", ">"]
  match ops.findSome? (fun op => (findSub cond.toList op.toList).map (fun pos => (op, pos))) with
  | some (op, pos) =>
    let var := strTrim (String.mk (cond.toList.take pos))
    let val_str := trimList (cond.toList.drop (pos + op.length))
    let val : Option Int :=
      if "0x".toList.isPrefixOf val_str then parseRadixI64 16 (val_str.drop 2)
      else parseRadixI64 10 val_str
    val.map (fun v => (var, op, v))
  | none => none

/-- eval_range_comparison embeds ConstantPropagator::eval_range_comparison. -/
def eval_range_comparison (min max : Int) (op : String) (val : Int) : BranchResult :=
  if op = "<" then
    if max < val then .AlwaysTrue else if min ≥ val then .AlwaysFalse else .Unknown
  else if op = "<=" then
    if max ≤ val then .AlwaysTrue else if min > val then .AlwaysFalse else .Unknown
  else if op = ">" then
    if min > val then .AlwaysTrue else if max ≤ val then .AlwaysFalse else .Unknown
  else if op = ">=" then
    if min ≥ val then .AlwaysTrue else if max < val then .AlwaysFalse else .Unknown
  else if op = "==" then
    if min = max ∧ min = val then .AlwaysTrue
    else if val < min ∨ val > max then .AlwaysFalse
    else .Unknown
  else if op = "!=" then
    if val < min ∨ val > max then .AlwaysTrue
    else if min = max ∧ min = val then .AlwaysFalse
    else .Unknown
  else .Unknown

/-- nullEqCheck embeds the "== NULL / == 0" stage of analyze_condition; a
variable of any other shape falls through (none). -/
def nullEqCheck (cp : ConstantPropagator) (cond : String) : Option BranchResult :=
  if strContains cond "== NULL" ∨ strContains cond "== 0" then
    match extract_var_from_check cond "==" with
    | some var =>
      match assocGet cp.vars var with
      | some (.Pointer true _) => some .AlwaysTrue
      | some (.Pointer false _) => some .AlwaysFalse
      | some (.Integer n) => if n = 0 then some .AlwaysTrue else some .AlwaysFalse
      | _ => none
    | none => none
  else none

/-- nullNeqCheck embeds the "!= NULL / != 0" stage of analyze_condition. -/
def nullNeqCheck (cp : ConstantPropagator) (cond : String) : Option BranchResult :=
  if strContains cond "!= NULL" ∨ strContains cond "!= 0" then
    match extract_var_from_check cond "!=" with
    | some var =>
      match assocGet cp.vars var with
      | some (.Pointer true _) => some .AlwaysFalse
      | some (.Pointer false _) => some .AlwaysTrue
      | some (.Integer n) => if n = 0 then some .AlwaysFalse else some .AlwaysTrue
      | _ => none
    | none => none
  else none

/-- rangeCompareCheck embeds the comparison stage of analyze_condition: an
Integer variable answers directly (an unrecognised operator yields Unknown),
a Range variable defers to eval_range_comparison, and any other value falls
through. -/
def rangeCompareCheck (cp : ConstantPropagator) (cond : String) : Option BranchResult :=
  match parse_comparison cond with
  | some (var, op, val) =>
    match assocGet cp.vars var with
    | some (.Integer n) =>
      if op = "<" then some (if n < val then .AlwaysTrue else .AlwaysFalse)
      else if op = "<=" then some (if n ≤ val then .AlwaysTrue else .AlwaysFalse)
      else if op = ">" then some (if n > val then .AlwaysTrue else .AlwaysFalse)
      else if op = ">=" then some (if n ≥ val then .AlwaysTrue else .AlwaysFalse)
      else if op = "==" then some (if n = val then .AlwaysTrue else .AlwaysFalse)
      else if op = "!=" then some (if n ≠ val then .AlwaysTrue else .AlwaysFalse)
      else some .Unknown
    | some (.Range min max) => some (eval_range_comparison min max op val)
    | _ => none
  | none => none

/-- analyze_condition embeds ConstantPropagator::analyze_condition. -/
def analyze_condition (cp : ConstantPropagator) (condition : String) : BranchResult :=
  let cond := strTrim condition
  match nullEqCheck cp cond with
  | some r => r
  | none =>
    match nullNeqCheck cp cond with
    | some r => r
    | none =>
      match rangeCompareCheck cp cond with
      | some r => r
      | none => .Unknown

/-- eval_condition embeds ConstantPropagator::eval_condition: the evaluator is
consulted first; only an Unknown truthiness reaches analyze_condition. -/
def eval_condition (cp : ConstantPropagator) (condition : String) : BranchResult :=
  match (Evaluator.eval cp.evaluator condition).is_truthy with
  | some true => .AlwaysTrue
  | some false => .AlwaysFalse
  | none => analyze_condition cp condition

end ConstantPropagator

/-! ## Flow nodes and the scenario executor
(crates/flowsight-analysis/src/callgraph.rs, scenario.rs) -/

/-- ConfidenceLevel embeds the call-graph confidence level enum. -/
inductive ConfidenceLevel where
  | Certain
  | Possible
  | Unknown
deriving DecidableEq, Repr

/-- CallConfidence embeds the call-graph CallConfidence record. -/
structure CallConfidence where
  level : ConfidenceLevel
  reason : String
deriving DecidableEq, Repr

/-- FlowNodeType embeds flowsight-core FlowNodeType. -/
inductive FlowNodeType where
  | Function
  | EntryPoint
  | AsyncCallback (mechanism : AsyncMechanism)
  | KernelApi
  | External
deriving DecidableEq, Repr

def FlowNodeType.isKernelApi : FlowNodeType → Bool
  | .KernelApi => true
  | _ => false

/-- FlowNode embeds the FlowNode record with the field set used by
scenario.rs (id, name, display name, location, node type, children,
description, confidence, execution context, can_sleep, source file,
kernel-internal flag). -/
inductive FlowNode where
  | mk
    (id : StrT)
    (name : StrT)
    (display_name : StrT)
    (location : Option Location)
    (node_type : FlowNodeType)
    (children : List FlowNode)
    (description : Option StrT)
    (confidence : Option CallConfidence)
    (execution_context : Option ExecutionContext)
    (can_sleep : Option BoolT)
    (source_file : Option StrT)
    (is_kernel_internal : BoolT)

def FlowNode.id : FlowNode → String
  | .mk v _ _ _ _ _ _ _ _ _ _ _ => v

def FlowNode.name : FlowNode → String
  | .mk _ v _ _ _ _ _ _ _ _ _ _ => v

def FlowNode.display_name : FlowNode → String
  | .mk _ _ v _ _ _ _ _ _ _ _ _ => v

def FlowNode.location : FlowNode → Option Location
  | .mk _ _ _ v _ _ _ _ _ _ _ _ => v

def FlowNode.node_type : FlowNode → FlowNodeType
  | .mk _ _ _ _ v _ _ _ _ _ _ _ => v

def FlowNode.children : FlowNode → List FlowNode
  | .mk _ _ _ _ _ v _ _ _ _ _ _ => v

def FlowNode.description : FlowNode → Option String
  | .mk _ _ _ _ _ _ v _ _ _ _ _ => v

def FlowNode.confidence : FlowNode → Option CallConfidence
  | .mk _ _ _ _ _ _ _ v _ _ _ _ => v

def FlowNode.execution_context : FlowNode → Option ExecutionContext
  | .mk _ _ _ _ _ _ _ _ v _ _ _ => v

def FlowNode.can_sleep : FlowNode → Option Bool
  | .mk _ _ _ _ _ _ _ _ _ v _ _ => v

def FlowNode.source_file : FlowNode → Option String
  | .mk _ _ _ _ _ _ _ _ _ _ v _ => v

def FlowNode.is_kernel_internal : FlowNode → Bool
  | .mk _ _ _ _ _ _ _ _ _ _ _ v => v

/-- ScenarioOptions embeds scenario.rs ScenarioOptions. -/
structure ScenarioOptions where
  follow_async : Bool
  show_kernel_api : Bool
  max_depth : Nat
deriving DecidableEq, Repr

/-- defaultScenarioOptions embeds ScenarioOptions::default. -/
def defaultScenarioOptions : ScenarioOptions :=
  { follow_async := true, show_kernel_api := true, max_depth := 10 }

/-- ValueBinding embeds scenario.rs ValueBinding. -/
structure ValueBinding where
  path : String
  value : SymbolicValue
deriving DecidableEq, Repr

/-- ScenarioDef embeds the scenario.rs Scenario record (name, entry function,
bindings, options). -/
structure ScenarioDef where
  name : String
  entry_function : String
  bindings : List ValueBinding
  options : ScenarioOptions
deriving DecidableEq, Repr

/-- ProgramState embeds scenario.rs ProgramState. -/
structure ProgramState where
  location : Location
  function : String
  variables_ : List (String × SymbolicValue)
  branch_condition : Option String
  reachable : Bool
deriving DecidableEq, Repr

namespace ScenarioExecutor

/-- extract_condition embeds ScenarioExecutor::extract_condition.  Note the
"_null" test runs first, exactly as in the source (so a name containing
"_not_null" is handled by the first branch). -/
def extract_condition (name : String) : Option String :=
  if strContains name "_null" then
    let var := strReplace (strReplace (strReplace name "if_" "") "_null" "") "_check" ""
    some (var ++ " == NULL")
  else if strContains name "_valid" ∨ strContains name "_not_null" then
    let var :=
      strReplace (strReplace (strReplace (strReplace name "if_" "") "_valid" "") "_not_null" "")
        "_check" ""
    some (var ++ " != NULL")
  else none

/-- check_branch_reachability embeds
ScenarioExecutor::check_branch_reachability: only a name containing "if_" or
"_check" whose extracted condition evaluates AlwaysFalse is unreachable. -/
def check_branch_reachability (cp : ConstantPropagator) (node : FlowNode) : Bool :=
  let name := node.name
  if strContains name "if_" ∨ strContains name "_check" then
    match extract_condition name with
    | some condition =>
      match cp.eval_condition condition with
      | .AlwaysFalse => false
      | .AlwaysTrue => true
      | .Unknown => true
    | none => true
  else true

/-- is_relevant_variable embeds ScenarioExecutor::is_relevant_variable. -/
def is_relevant_variable (path : String) (_func_name : String) : Bool :=
  !path.isEmpty

/-- build_description embeds ScenarioExecutor::build_description. -/
def build_description (cp : ConstantPropagator) (node : FlowNode) (reachable : Bool) : String :=
  let desc : List String :=
    (if reachable then [] else ["[unreachable]"]) ++
    (match node.location with
     | some loc => ["L" ++ toString loc.line]
     | none => []) ++
    (cp.vars.filterMap (fun p =>
      if is_relevant_variable p.1 node.name then some (p.1 ++ "=" ++ p.2.display) else none))
  if desc.isEmpty then node.description.getD ""
  else String.intercalate " | " desc

/-- childFilter embeds the show_kernel_api child filter in walk_tree. -/
def childFilter (opts : ScenarioOptions) (child : FlowNode) : Bool :=
  !(!opts.show_kernel_api ∧ child.node_type.isKernelApi)

/-- walk_tree embeds ScenarioExecutor::walk_tree, returning the annotated copy
of the node together with the ProgramState snapshots pushed onto self.path
(pre-order: the node's own state, then the children's states in order).  The
fuel argument bounds recursion depth; walk_tree stops at
depth > options.max_depth, so any fuel exceeding max_depth + 1 - depth is
never exhausted. -/
def walk_tree (cp : ConstantPropagator) (opts : ScenarioOptions) :
    Nat → FlowNode → Nat → Bool → FlowNode × List ProgramState
  | 0, node, _, _ => (node, [])
  | fuel + 1, node, depth, reachable =>
    if depth > opts.max_depth then (node, [])
    else
      let st : ProgramState :=
        { location := node.location.getD default
          function := node.name
          variables_ := cp.vars
          branch_condition := none
          reachable := reachable }
      let description := build_description cp node reachable
      let node_type := if reachable then node.node_type else node.node_type
      let filtered := node.children.filter (childFilter opts)
      let walked := filtered.map (fun child =>
        let child_reachable := if reachable then check_branch_reachability cp child else false
        walk_tree cp opts fuel child (depth + 1) child_reachable)
      (FlowNode.mk node.id node.name node.display_name node.location node_type
        (walked.map Prod.fst) (some description) node.confidence node.execution_context
        node.can_sleep node.source_file node.is_kernel_internal,
       st :: (walked.map Prod.snd).flatten)

/-- ExecutionPath embeds scenario.rs ExecutionPath. -/
structure ExecutionPath where
  states : List ProgramState
  completed : Bool
  termination_reason : Option String
  flow_tree : Option FlowNode

/-- execute embeds ScenarioExecutor::execute: the propagator is seeded from
the scenario bindings and the tree is walked from depth 0, reachable. -/
def execute (sc : ScenarioDef) (flow_tree : FlowNode) : ExecutionPath :=
  let bindings := sc.bindings.map (fun b => (b.path, b.value))
  let cp := ConstantPropagator.init_from_bindings bindings
  let r := walk_tree cp sc.options (sc.options.max_depth + 2) flow_tree 0 true
  { states := r.2, completed := true, termination_reason := none, flow_tree := some r.1 }

end ScenarioExecutor

/-! ## Result classification (crates/flowsight-analysis/src/classification.rs) -/

namespace Classification

/-- Confidence embeds classification.rs Confidence. -/
inductive Confidence where
  | Certain
  | Possible
  | Unknown
deriving DecidableEq, Repr

/-- ClassifiedTarget embeds classification.rs ClassifiedTarget. -/
structure ClassifiedTarget where
  name : String
  confidence : Confidence
  reason : String
deriving DecidableEq, Repr

/-- ClassifiedEdge embeds classification.rs ClassifiedEdge. -/
structure ClassifiedEdge where
  caller : String
  call_site : String
  targets : List ClassifiedTarget
  overall_confidence : Confidence
deriving DecidableEq, Repr

/-- ClassifiedEdge.certain embeds ClassifiedEdge::certain. -/
def ClassifiedEdge.certain (caller call_site target reason : String) : ClassifiedEdge :=
  { caller := caller
    call_site := call_site
    targets := [{ name := target, confidence := .Certain, reason := reason }]
    overall_confidence := .Certain }

/-- ClassifiedEdge.possible embeds ClassifiedEdge::possible. -/
def ClassifiedEdge.possible (caller call_site : String) (targets : List (String × String)) :
    ClassifiedEdge :=
  { caller := caller
    call_site := call_site
    targets := targets.map (fun t => { name := t.1, confidence := .Possible, reason := t.2 })
    overall_confidence := .Possible }

/-- ClassifiedEdge.unknown embeds ClassifiedEdge::unknown. -/
def ClassifiedEdge.unknown (caller call_site reason : String) : ClassifiedEdge :=
  { caller := caller
    call_site := call_site
    targets := [{ name := "<unknown>", confidence := .Unknown, reason := reason }]
    overall_confidence := .Unknown }

/-- classify_funcptr_call embeds ResultClassifier::classify_funcptr_call
(the method reads no classifier state, so it is embedded without a receiver). -/
def classify_funcptr_call (caller expr : String) (targets : List String) (line : Nat) :
    ClassifiedEdge :=
  if targets.isEmpty then
    ClassifiedEdge.unknown caller ("L" ++ toString line ++ ": " ++ expr)
      "No targets resolved for function pointer"
  else if targets.length = 1 then
    ClassifiedEdge.certain caller ("L" ++ toString line ++ ": " ++ expr)
      (targets.headD "") "Single resolved function pointer target"
  else
    ClassifiedEdge.possible caller ("L" ++ toString line ++ ": " ++ expr)
      (targets.map (fun t => (t, "Possible function pointer target")))

end Classification

/-! ## Andersen pointer analysis (crates/flowsight-analysis/src/pointer.rs)

The Constraint enum in the pointer.rs snapshot under src lacks the ArrayStore
and ArrayLoad variants that constraint.rs emits, and the solver match lacks
their arms; those two variants and their solver semantics are modelled from
the spec below and are marked as such. -/

namespace Andersen

/-- Location embeds the pointer.rs Location enum (the points-to domain). -/
inductive Location where
  | Variable (name : StrT)
  | Field (base field : StrT)
  | Function (name : StrT)
  | Alloc (site : StrT)
  | ArrayElement (name : StrT)
deriving DecidableEq, Repr

/-- Constraint embeds the pointer.rs Constraint enum, extended with the two
array variants used by constraint.rs.

Modelled from the spec: the ArrayStore \x7barray, src\x7d and
ArrayLoad \x7bdest, array\x7d variants (spec section 3, "Constraint") are
missing from the Constraint enum in the src snapshot of pointer.rs; their
shapes are taken from the constraint.rs call sites. -/
inductive Constraint where
  | AddressOf (pointer target : Location)
  | Copy (dest src : Location)
  | Load (dest src_ptr : Location)
  | Store (dest_ptr src : Location)
  | FieldLoad (dest base_ptr : Location) (field : StrT)
  | FieldStore (base_ptr : Location) (field : StrT) (src : Location)
  | ArrayStore (array : StrT) (src : Location)
  | ArrayLoad (dest : Location) (array : StrT)
deriving DecidableEq, Repr

/-- loc_key embeds AndersenSolver::loc_key. -/
def loc_key : Location → String
  | .Variable name => name
  | .Field base field => base ++ "." ++ field
  | .Function name => name
  | .Alloc site => "alloc:" ++ site
  | .ArrayElement name => name ++ "[]"

/-- Solver embeds the AndersenSolver state.  The pts HashMap is represented as
a total function with default []; an absent key and an empty set are
observationally identical everywhere the solver reads pts.  The changed
HashSet and the per-key HashSets are duplicate-free lists in insertion
order. -/
structure Solver where
  constraints : List Constraint
  pts : StrT → List StrT
  worklist : List StrT
  changed : List StrT

/-- Solver.new embeds AndersenSolver::new. -/
def Solver.new : Solver :=
  { constraints := [], pts := fun _ => [], worklist := [], changed := [] }

/-- add_constraints embeds AndersenSolver::add_constraints. -/
def add_constraints (s : Solver) (cs : List Constraint) : Solver :=
  { s with constraints := s.constraints ++ cs }

/-- setInsert mirrors HashSet::insert on a duplicate-free list. -/
def setInsert (l : List String) (x : String) : List String :=
  if x ∈ l then l else l ++ [x]

/-- initStep embeds one iteration of the AndersenSolver::initialize loop:
an AddressOf inserts its target into the pointer's set and pushes the pointer
key onto the worklist; other constraints are skipped. -/
def initStep (st : Solver) (c : Constraint) : Solver :=
  match c with
  | .AddressOf pointer target =>
    { st with
      pts := Function.update st.pts (loc_key pointer)
        (setInsert (st.pts (loc_key pointer)) (loc_key target))
      worklist := st.worklist ++ [loc_key pointer] }
  | _ => st

/-- initFromAddressOf embeds AndersenSolver::initialize (the worklist is
never consumed by solve). -/
def initFromAddressOf (s : Solver) : Solver :=
  s.constraints.foldl initStep s

/-- add_to_pts embeds AndersenSolver::add_to_pts: insert the target and record
the location in changed exactly when the set grew. -/
def add_to_pts (s : Solver) (loc target : String) : Solver :=
  let set := s.pts loc
  if target ∈ set then s
  else
    { s with
      pts := Function.update s.pts loc (set ++ [target])
      changed := setInsert s.changed loc }

/-- union_pts embeds AndersenSolver::union_pts: extend pts(dest) with
pts(src); dest is recorded in changed exactly when the set grew (the Rust
code compares lengths after a deduplicating extend, which is the same
condition). -/
def union_pts (s : Solver) (dest src : String) : Solver :=
  let src_set := s.pts src
  let dest_set := s.pts dest
  let add := src_set.filter (fun t => decide (t ∉ dest_set))
  if add.isEmpty then s
  else
    { s with
      pts := Function.update s.pts dest (dest_set ++ add)
      changed := setInsert s.changed dest }

/-- process_constraint embeds one arm of the constraint loop in
AndersenSolver::solve.  The iteration order over a cloned points-to set is
the list order (Rust's HashSet order is arbitrary; the result does not
depend on it, as each step only unions into sets).

Modelled from the spec: the ArrayStore and ArrayLoad arms (missing from the
pointer.rs snapshot).  Spec sections 3 and 4.2-4.3: the whole array is one
abstract cell (key "name[]", the loc_key of ArrayElement); arr[i] = f is a
function store into the cell (an implicit address-of, like the initialising
AddressOf), and an ArrayLoad copies the cell into dest. -/
def process_constraint (s : Solver) (c : Constraint) : Solver :=
  match c with
  | .AddressOf _ _ => s
  | .Copy dest src => union_pts s (loc_key dest) (loc_key src)
  | .Load dest src_ptr =>
    (s.pts (loc_key src_ptr)).foldl (fun st target => union_pts st (loc_key dest) target) s
  | .Store dest_ptr src =>
    (s.pts (loc_key dest_ptr)).foldl (fun st target => union_pts st target (loc_key src)) s
  | .FieldLoad dest base_ptr field =>
    (s.pts (loc_key base_ptr)).foldl
      (fun st base => union_pts st (loc_key dest) (base ++ "." ++ field)) s
  | .FieldStore base_ptr field src =>
    (s.pts (loc_key base_ptr)).foldl
      (fun st base => union_pts st (base ++ "." ++ field) (loc_key src)) s
  | .ArrayStore array src => add_to_pts s (loc_key (.ArrayElement array)) (loc_key src)
  | .ArrayLoad dest array => union_pts s (loc_key dest) (loc_key (.ArrayElement array))

/-- solvePass embeds one iteration of the solve loop: clear changed, then
process every constraint in order. -/
def solvePass (s : Solver) : Solver :=
  s.constraints.foldl process_constraint { s with changed := [] }

/-- max_iterations embeds the solve safety ceiling. -/
def max_iterations : Nat := 1000

/-- solveGo embeds the solve loop: run a pass; stop when no set grew
(changed empty) or when the iteration budget is exhausted. -/
def solveGo : Nat → Solver → Solver
  | 0, s => s
  | fuel + 1, s =>
    let s' := solvePass s
    if s'.changed = [] then s' else solveGo fuel s'

/-- solveStart is the solver state entering the solve loop: a fresh solver
holding the given constraints, initialized from its AddressOf constraints. -/
def solveStart (cs : List Constraint) : Solver :=
  initFromAddressOf (add_constraints Solver.new cs)

/-- solve embeds AndersenSolver::solve on a solver holding the given
constraints (initialize from AddressOf, then iterate to a fixed point with
the 1000-iteration ceiling).  The resulting points-to map is s.pts, which
PointsToResult copies verbatim. -/
def solve (cs : List Constraint) : Solver :=
  solveGo max_iterations (solveStart cs)

/-- passIter iterates solvePass k times unconditionally (used to state which
pass the loop stopped at). -/
def passIter : Nat → Solver → Solver
  | 0, s => s
  | k + 1, s => passIter k (solvePass s)

end Andersen

/-! ## Constraint collector (crates/flowsight-analysis/src/constraint.rs)

The collector walks a tree-sitter C syntax tree.  The parser is an external
collaborator; its output is embedded as CNode values carrying the node kind,
the node's source text (Node::utf8_text) and the child list (Node::children,
anonymous tokens included). -/

/-- CNode models a tree-sitter syntax node as consumed by the collector. -/
inductive CNode where
  | mk (kind : StrT) (text : StrT) (children : List CNode)

def CNode.kind : CNode → String
  | .mk k _ _ => k

def CNode.text : CNode → String
  | .mk _ t _ => t

def CNode.children : CNode → List CNode
  | .mk _ _ c => c

namespace Collector

/-- ConstraintCollector embeds the collector state: emitted constraints (in
order), the known-function name set, the current function, and the array
table. -/
structure ConstraintCollector where
  constraints : List Andersen.Constraint
  functions : List StrT
  current_function : Option StrT
  arrays : List (StrT × BoolT)

/-- newCollector embeds ConstraintCollector::new followed by set_functions. -/
def newCollector (functions : List String) : ConstraintCollector :=
  { constraints := [], functions := functions, current_function := none, arrays := [] }

def hasFn (st : ConstraintCollector) (name : String) : Bool :=
  decide (name ∈ st.functions)

def pushC (st : ConstraintCollector) (c : Andersen.Constraint) : ConstraintCollector :=
  { st with constraints := st.constraints ++ [c] }

/-- dropLeading mirrors str::trim_start_matches(char): remove every leading
occurrence. -/
def dropLeading (c : Char) (s : String) : String :=
  String.mk (s.toList.dropWhile (fun x => decide (x = c)))

def strTrim (s : String) : String :=
  String.mk (trimList s.toList)

/-- extract_identifier embeds ConstraintCollector::extract_identifier (fuel
bounds the tree depth). -/
def extract_identifier : Nat → CNode → Option String
  | 0, _ => none
  | fuel + 1, n =>
    if n.kind = "identifier" then some n.text
    else n.children.findSome? (fun c => extract_identifier fuel c)

/-- extract_array_name embeds ConstraintCollector::extract_array_name. -/
def extract_array_name (fuel : Nat) (n : CNode) : Option String :=
  n.children.findSome? (fun child =>
    if child.kind = "identifier" then some child.text
    else if child.kind = "pointer_declarator" ∨ child.kind = "parenthesized_declarator" then
      extract_identifier fuel child
    else none)

/-- get_function_name embeds ConstraintCollector::get_function_name: the
first function_declarator or pointer_declarator child decides the result. -/
def get_function_name (fuel : Nat) (n : CNode) : Option String :=
  match n.children.find? (fun c =>
      decide (c.kind = "function_declarator" ∨ c.kind = "pointer_declarator")) with
  | some child => extract_identifier fuel child
  | none => none

/-- parse_field_str embeds ConstraintCollector::parse_field_str. -/
def parse_field_str (s : String) : String × Option String :=
  match findSub s.toList "->".toList with
  | some pos =>
    (strTrim (String.mk (s.toList.take pos)), some (strTrim (String.mk (s.toList.drop (pos + 2)))))
  | none =>
    match rfindChar s.toList '.' with
    | some pos =>
      (strTrim (String.mk (s.toList.take pos)),
       some (strTrim (String.mk (s.toList.drop (pos + 1)))))
    | none => (s, none)

/-- parse_location embeds ConstraintCollector::parse_location. -/
def parse_location (s0 : String) : Andersen.Location :=
  let s := strTrim s0
  if strContains s "->" ∨ strContains s "." then
    match parse_field_str s with
    | (base, some f) => .Field base f
    | (_, none) => .Variable s
  else .Variable s

/-- handle_array_initializer embeds
ConstraintCollector::handle_array_initializer. -/
def handle_array_initializer (st : ConstraintCollector) (array_name : String) (init : CNode) :
    ConstraintCollector :=
  init.children.foldl
    (fun st child =>
      if child.kind = "identifier" then
        let func_name := child.text
        if hasFn st func_name then pushC st (.ArrayStore array_name (.Function func_name))
        else st
      else if child.kind = "unary_expression" then
        let text := child.text
        if "&".toList.isPrefixOf text.toList then
          let func_name := strTrim (dropLeading '&' text)
          if hasFn st func_name then pushC st (.ArrayStore array_name (.Function func_name))
          else st
        else st
      else st)
    st

/-- handle_declaration embeds ConstraintCollector::handle_declaration minus
the trailing visit_children (supplied by the caller at the right fuel). -/
def handle_declaration_core (fuel : Nat) (st : ConstraintCollector) (node : CNode) :
    ConstraintCollector :=
  let text := node.text
  let fpScan : Option String :=
    if listContainsSub text.toList "(*".toList ∧ listContainsSub text.toList "[".toList then
      match findSub text.toList "(*".toList with
      | some start =>
        let after_paren := text.toList.drop (start + 2)
        match findSub after_paren "[".toList with
        | some bracket =>
          let name := strTrim (String.mk (after_paren.take bracket))
          if ¬ name.isEmpty then some name else none
        | none => none
      | none => none
    else none
  let init0 : Option String × Bool := match fpScan with
    | some name => (some name, true)
    | none => (none, false)
  let scanned : Option String × Bool × Option CNode :=
    node.children.foldl
      (fun acc child =>
        if child.kind = "init_declarator" then
          child.children.foldl
            (fun acc inner_child =>
              if inner_child.kind = "array_declarator" then
                match extract_array_name fuel inner_child with
                | some name => (some name, acc.2.1, acc.2.2)
                | none => acc
              else if inner_child.kind = "initializer_list" then
                (acc.1, acc.2.1, some inner_child)
              else acc)
            acc
        else acc)
      (init0.1, init0.2, none)
  match scanned with
  | (some name, is_fp, some init) =>
    let st := { st with arrays := assocSet st.arrays name is_fp }
    handle_array_initializer st name init
  | (some name, is_fp, none) => { st with arrays := assocSet st.arrays name is_fp }
  | (none, _, _) => st

/-- collect_assignment_constraint embeds
ConstraintCollector::collect_assignment_constraint; the staged options mirror
the early returns of the source. -/
def collect_assignment_constraint (st : ConstraintCollector) (lhs : String) (rhs : CNode) :
    ConstraintCollector :=
  let rhs_text := rhs.text
  let addrOf : Option ConstraintCollector :=
    if rhs.kind = "unary_expression" then
      match rhs.children with
      | c0 :: c1 :: _ =>
        if c0.text = "&" then
          let target := c1.text
          let target_loc : Andersen.Location :=
            if hasFn st target then .Function target else .Variable target
          some (pushC st (.AddressOf (parse_location lhs) target_loc))
        else none
      | _ => none
    else none
  match addrOf with
  | some st' => st'
  | none =>
    if hasFn st rhs_text then
      pushC st (.AddressOf (parse_location lhs) (.Function rhs_text))
    else
      let fieldLoad : Option ConstraintCollector :=
        if rhs.kind = "field_expression" then
          match parse_field_str rhs.text with
          | (base, some f) =>
            some (pushC st (.FieldLoad (parse_location lhs) (.Variable base) f))
          | (_, none) => none
        else none
      match fieldLoad with
      | some st' => st'
      | none =>
        if rhs.kind = "pointer_expression" ∨
            (rhs.kind = "unary_expression" ∧ "*".toList.isPrefixOf rhs_text.toList) then
          let inner := strTrim (dropLeading '*' rhs_text)
          pushC st (.Load (parse_location lhs) (.Variable inner))
        else if "*".toList.isPrefixOf lhs.toList then
          let ptr := strTrim (dropLeading '*' lhs)
          pushC st (.Store (.Variable ptr) (parse_location rhs_text))
        else
          let fieldStore : Option ConstraintCollector :=
            if strContains lhs "->" ∨ strContains lhs "." then
              match parse_field_str lhs with
              | (base, some f) =>
                some (pushC st (.FieldStore (.Variable base) f (parse_location rhs_text)))
              | (_, none) => none
            else none
          match fieldStore with
          | some st' => st'
          | none => pushC st (.Copy (parse_location lhs) (parse_location rhs_text))

/-- handle_init_declarator embeds ConstraintCollector::handle_init_declarator. -/
def handle_init_declarator (st : ConstraintCollector) (node : CNode) : ConstraintCollector :=
  let scanned : Option String × Option CNode :=
    node.children.foldl
      (fun acc child =>
        if child.kind = "pointer_declarator" then
          -- extract_identifier is only reached through children of the
          -- init_declarator here; depth 32 exceeds any tree in this file
          (extract_identifier 32 child, acc.2)
        else if child.kind = "identifier" then
          if acc.1.isNone then (some child.text, acc.2)
          else if acc.2.isNone then (acc.1, some child)
          else acc
        else if child.kind = "unary_expression" ∨ child.kind = "call_expression" ∨
            child.kind = "field_expression" then
          (acc.1, some child)
        else if strContains child.kind "expression" then
          (acc.1, some child)
        else acc)
      (none, none)
  match scanned with
  | (some var, some init) => collect_assignment_constraint st var init
  | _ => st

/-- handle_array_assignment embeds ConstraintCollector::handle_array_assignment. -/
def handle_array_assignment (st : ConstraintCollector) (lhs rhs : CNode) : ConstraintCollector :=
  let rhs_text := rhs.text
  match lhs.children.find? (fun c => decide (c.kind = "identifier")) with
  | some child =>
    let array_name := child.text
    if hasFn st rhs_text then pushC st (.ArrayStore array_name (.Function rhs_text))
    else st
  | none => st

/-- handle_assignment embeds ConstraintCollector::handle_assignment: the first
non-"=" child is the lhs, the last following non-"=" child is the rhs. -/
def handle_assignment (st : ConstraintCollector) (node : CNode) : ConstraintCollector :=
  let scanned : Option CNode × Option CNode :=
    node.children.foldl
      (fun acc child =>
        if acc.1.isNone ∧ child.kind ≠ "=" then (some child, acc.2)
        else if acc.1.isSome ∧ child.kind ≠ "=" then (acc.1, some child)
        else acc)
      (none, none)
  match scanned with
  | (some l, some r) =>
    if l.kind = "subscript_expression" then handle_array_assignment st l r
    else collect_assignment_constraint st l.text r
  | _ => st

/-- handle_array_call embeds ConstraintCollector::handle_array_call. -/
def handle_array_call (st : ConstraintCollector) (subscript : CNode) : ConstraintCollector :=
  match subscript.children.find? (fun c => decide (c.kind = "identifier")) with
  | some child =>
    let array_name := child.text
    let call_target := "__call_from_" ++ array_name
    pushC st (.ArrayLoad (.Variable call_target) array_name)
  | none => st

/-- get_call_args embeds ConstraintCollector::get_call_args. -/
def get_call_args (node : CNode) : Option (List String) :=
  match node.children.find? (fun c => decide (c.kind = "argument_list")) with
  | some child =>
    some ((child.children.filter (fun arg =>
      decide (arg.kind ≠ "(" ∧ arg.kind ≠ ")" ∧ arg.kind ≠ ","))).map CNode.text)
  | none => none

/-- handle_call_core embeds the registration-pattern part of
ConstraintCollector::handle_call (everything except the array-call branch and
the trailing visit_children, which the caller supplies). -/
def handle_call_core (st : ConstraintCollector) (node : CNode) (func_name : String) :
    ConstraintCollector :=
  if func_name = "INIT_WORK" ∨ func_name = "INIT_DELAYED_WORK" then
    match get_call_args node with
    | some args =>
      if args.length ≥ 2 then
        let work := dropLeading '&' (args.headD "")
        let handler := args.getD 1 ""
        if hasFn st handler then
          pushC st (.FieldStore (.Variable work) "func" (.Function handler))
        else st
      else st
    | none => st
  else if func_name = "timer_setup" then
    match get_call_args node with
    | some args =>
      if args.length ≥ 2 then
        let timer := dropLeading '&' (args.headD "")
        let handler := args.getD 1 ""
        if hasFn st handler then
          pushC st (.FieldStore (.Variable timer) "function" (.Function handler))
        else st
      else st
    | none => st
  else if func_name = "request_irq" ∨ func_name = "request_threaded_irq" then
    match get_call_args node with
    | some args =>
      if args.length ≥ 2 then
        let handler := args.getD 1 ""
        if hasFn st handler then
          pushC st (.AddressOf (.Variable ("irq_" ++ args.headD "")) (.Function handler))
        else st
      else st
    | none => st
  else st

/-- handle_initializer_pair embeds ConstraintCollector::handle_initializer_pair. -/
def handle_initializer_pair (st : ConstraintCollector) (node : CNode) : ConstraintCollector :=
  let scanned : Option String × Option String :=
    node.children.foldl
      (fun acc child =>
        if child.kind = "field_designator" then
          (match extract_identifier 32 child with
           | some id => some id
           | none => some (dropLeading '.' child.text), acc.2)
        else if child.kind = "identifier" then
          if acc.1.isSome then (acc.1, some child.text) else acc
        else acc)
      (none, none)
  match scanned with
  | (some field, some val) =>
    if hasFn st val then
      pushC st (.AddressOf (.Field "__init__" field) (.Function val))
    else st
  | _ => st

/-- handle_initializer_list embeds ConstraintCollector::handle_initializer_list. -/
def handle_initializer_list (st : ConstraintCollector) (node : CNode) : ConstraintCollector :=
  node.children.foldl
    (fun st child =>
      if child.kind = "initializer_pair" then handle_initializer_pair st child else st)
    st

/-- visit_node embeds ConstraintCollector::visit_node; visit_children folds
visit_node over the child list.  The fuel bounds tree depth and exceeds the
depth of every tree built in this file. -/
def visit_node : Nat → ConstraintCollector → CNode → ConstraintCollector
  | 0, st, _ => st
  | fuel + 1, st, node =>
    let vc := fun (st' : ConstraintCollector) (n : CNode) =>
      n.children.foldl (visit_node fuel) st'
    if node.kind = "function_definition" then
      let st := { st with current_function := get_function_name fuel node }
      let st := vc st node
      { st with current_function := none }
    else if node.kind = "declaration" then
      vc (handle_declaration_core fuel st node) node
    else if node.kind = "init_declarator" then
      handle_init_declarator st node
    else if node.kind = "assignment_expression" then
      handle_assignment st node
    else if node.kind = "call_expression" then
      match node.children with
      | [] => st
      | callee :: _ =>
        if callee.kind = "subscript_expression" then
          vc (handle_array_call st callee) node
        else
          vc (handle_call_core st node callee.text) node
    else if node.kind = "initializer_list" then
      handle_initializer_list st node
    else
      vc st node

/-- collectFromTree embeds ConstraintCollector::collect on the syntax tree the
external parser returns for the source. -/
def collectFromTree (functions : List String) (root : CNode) : List Andersen.Constraint :=
  (visit_node 32 (newCollector functions) root).constraints

end Collector

/-! ## Parser combinators for the compiled regular expressions

The regex crate is an external collaborator.  Each compiled pattern that a
claim exercises is embedded as a deterministic scanner with the same match
semantics; for every pattern below the greedy character classes are disjoint
from what follows them, so greedy matching without backtracking is exact. -/

def pLit (lit : List Char) (l : List Char) : Option (List Char) :=
  if lit.isPrefixOf l then some (l.drop lit.length) else none

def pChar (c : Char) (l : List Char) : Option (List Char) :=
  match l with
  | x :: rest => if x = c then some rest else none
  | [] => none

/-- pWs0 consumes any whitespace (regex \s*). -/
def pWs0 (l : List Char) : List Char :=
  l.dropWhile isWsC

/-- pWs1 consumes at least one whitespace character (regex \s+). -/
def pWs1 (l : List Char) : Option (List Char) :=
  match l with
  | c :: rest => if isWsC c then some (rest.dropWhile isWsC) else none
  | [] => none

/-- pClass1 consumes a non-empty greedy run of class characters (regex
[class]+), returning the captured run. -/
def pClass1 (p : Char → Bool) (l : List Char) : Option (List Char × List Char) :=
  let tk := l.takeWhile p
  if tk.isEmpty then none else some (tk, l.drop tk.length)

/-! ## Function-pointer resolver (crates/flowsight-analysis/src/funcptr.rs) -/

namespace FuncPtr

/-- matchStructInitAt matches the struct-initializer regex
static\s+(?:const\s+)?struct\s+(\w+)\s+(\w+)\s*=\s*\x7b([^\x7d]+)\x7d
anchored at the head of l, returning (struct type, variable name, body) and
the rest of the input after the match. -/
def matchStructInitAt (l : List Char) : Option ((String × String × String) × List Char) := do
  let r1 ← pLit "static".toList l
  let r2 ← pWs1 r1
  let r3 :=
    match pLit "const".toList r2 with
    | some rc =>
      match pWs1 rc with
      | some rc' => rc'
      | none => r2
    | none => r2
  let r4 ← pLit "struct".toList r3
  let r5 ← pWs1 r4
  let (g1, r6) ← pClass1 isWordC r5
  let r7 ← pWs1 r6
  let (g2, r8) ← pClass1 isWordC r7
  let r9 := pWs0 r8
  let r10 ← pChar '=' r9
  let r11 := pWs0 r10
  let r12 ← pChar '\x7b' r11
  let (g3, r13) ← pClass1 (fun c => decide (c ≠ '\x7d')) r12
  let r14 ← pChar '\x7d' r13
  some ((String.mk g1, String.mk g2, String.mk g3), r14)

/-- scanStructInits embeds struct_init_re.captures_iter: leftmost matches,
resuming after each match end. -/
def scanStructInits : Nat → List Char → List (String × String × String)
  | 0, _ => []
  | fuel + 1, l =>
    match l with
    | [] => []
    | _ :: rest =>
      match matchStructInitAt l with
      | some (cap, remaining) => cap :: scanStructInits fuel remaining
      | none => scanStructInits fuel rest

/-- matchFieldAssignAt matches the field-assignment regex
\.(\w+)\s*=\s*(\w+) anchored at the head of l. -/
def matchFieldAssignAt (l : List Char) : Option ((String × String) × List Char) := do
  let r1 ← pChar '.' l
  let (g1, r2) ← pClass1 isWordC r1
  let r3 := pWs0 r2
  let r4 ← pChar '=' r3
  let r5 := pWs0 r4
  let (g2, r6) ← pClass1 isWordC r5
  some ((String.mk g1, String.mk g2), r6)

/-- scanFieldAssigns embeds field_assign_re.captures_iter. -/
def scanFieldAssigns : Nat → List Char → List (String × String)
  | 0, _ => []
  | fuel + 1, l =>
    match l with
    | [] => []
    | _ :: rest =>
      match matchFieldAssignAt l with
      | some (cap, remaining) => cap :: scanFieldAssigns fuel remaining
      | none => scanFieldAssigns fuel rest

/-- structPatMatchesAt matches struct\s+NAME anchored at the head of l. -/
def structPatMatchesAt (name : List Char) (l : List Char) : Bool :=
  match pLit "struct".toList l with
  | some r1 =>
    match pWs1 r1 with
    | some r2 => name.isPrefixOf r2
    | none => false
  | none => false

def structPatSearchAux (name : List Char) : Nat → List Char → Bool
  | 0, _ => false
  | fuel + 1, l =>
    if structPatMatchesAt name l then true
    else
      match l with
      | [] => false
      | _ :: rest => structPatSearchAux name fuel rest

/-- structPatIsMatch embeds Regex::is_match for a struct\s+NAME pattern. -/
def structPatIsMatch (name : String) (s : String) : Bool :=
  structPatSearchAux name.toList (s.toList.length + 1) s.toList

/-- OpsTablePattern embeds funcptr.rs OpsTablePattern: the struct name of the
compiled struct_pattern regex and the field_mappings pairs. -/
structure OpsTablePattern where
  struct_name : String
  field_mappings : List (String × String)

/-- default_patterns embeds FuncPtrResolver::default_patterns. -/
def default_patterns : List OpsTablePattern :=
  [ { struct_name := "file_operations"
      field_mappings :=
        [("open", "Called on open()"), ("read", "Called on read()"),
         ("write", "Called on write()"), ("release", "Called on close()"),
         ("unlocked_ioctl", "Called on ioctl()"), ("mmap", "Called on mmap()"),
         ("poll", "Called on poll()"), ("llseek", "Called on lseek()")] },
    { struct_name := "usb_driver"
      field_mappings :=
        [("probe", "Called when device matches"), ("disconnect", "Called on device removal"),
         ("suspend", "Called on system suspend"), ("resume", "Called on system resume")] },
    { struct_name := "platform_driver"
      field_mappings :=
        [("probe", "Called when device matches"), ("remove", "Called on device removal"),
         ("shutdown", "Called on system shutdown")] },
    { struct_name := "i2c_driver"
      field_mappings :=
        [("probe", "Called when device matches"), ("remove", "Called on device removal")] },
    { struct_name := "net_device_ops"
      field_mappings :=
        [("ndo_open", "Called on interface up"), ("ndo_stop", "Called on interface down"),
         ("ndo_start_xmit", "Called to transmit packet"),
         ("ndo_get_stats64", "Called to get statistics"),
         ("ndo_set_mac_address", "Called to set MAC")] },
    { struct_name := "block_device_operations"
      field_mappings :=
        [("open", "Called on block device open"), ("release", "Called on block device close"),
         ("ioctl", "Called on block device ioctl")] } ]

/-- analyze_ops_tables embeds FuncPtrResolver::analyze_ops_tables: every
struct-initializer capture is checked against every ops pattern; matching
tables contribute one ("VAR.field", FUNC) pair per field assignment whose
field is a known callback slot and whose value is a known function. -/
def analyze_ops_tables (source : String) (functions : List (String × FunctionDef)) :
    List (String × String) :=
  (scanStructInits (source.toList.length + 1) source.toList).flatMap
    (fun cap =>
      let struct_type := cap.1
      let var_name := cap.2.1
      let body := cap.2.2
      default_patterns.flatMap (fun pattern =>
        if structPatIsMatch pattern.struct_name ("struct " ++ struct_type) then
          (scanFieldAssigns (body.toList.length + 1) body.toList).filterMap (fun fc =>
            let field := fc.1
            let func_name := fc.2
            if (pattern.field_mappings.find? (fun p => p.1 = field)).isSome ∧
                (assocGet functions func_name).isSome then
              some (var_name ++ "." ++ field, func_name)
            else none)
        else []))

/-- applyOpsMarkings embeds the ops-mapping loop of Analyzer::analyze
(lib.rs): each resolved (context, func) pair marks the named function as a
callback and stores the context string. -/
def applyOpsMarkings (functions : List (String × FunctionDef))
    (mappings : List (String × String)) : List (String × FunctionDef) :=
  mappings.foldl
    (fun fns m =>
      fns.map (fun p =>
        if p.1 = m.2 then
          (p.1, { p.2 with is_callback := true, callback_context := some m.1 })
        else p))
    functions

end FuncPtr

/-! ## Async tracker (crates/flowsight-analysis/src/async_tracker.rs) -/

namespace Async

/-- Captures models regex::Captures as consumed by the tracker: index 0 is
the whole match, index i the i-th group (none when unmatched); the length
counts all groups plus the whole match. -/
abbrev Captures := List (Option String)

/-- capGet models Captures::get(i). -/
def capGet (caps : Captures) (i : Nat) : Option String :=
  (caps.get? i).join

/-- AsyncPattern embeds async_tracker.rs AsyncPattern, with each compiled
regex represented by its capture function (the regex crate is external). -/
structure AsyncPattern where
  mechanism : AsyncMechanism
  context : ExecutionContext
  bind_patterns : List (String → Option Captures)
  trigger_patterns : List (String → Option Captures)

/-- splitNl splits a character list on newline characters. -/
def splitNl : List Char → List (List Char)
  | [] => [[]]
  | '\n' :: rest => [] :: splitNl rest
  | c :: rest =>
    match splitNl rest with
    | l :: ls => (c :: l) :: ls
    | [] => [[c]]

/-- linesOf mirrors str::lines: split on newlines, no trailing empty line,
trailing carriage returns stripped. -/
def linesOf (source : String) : List String :=
  let parts := splitNl source.toList
  let parts := if parts.getLast? = some [] then parts.dropLast else parts
  parts.map (fun l => if l.getLast? = some '\r' then String.mk l.dropLast else String.mk l)

/-- variables_match embeds AsyncTracker::variables_match. -/
def variables_match (var1 var2 : String) : Bool :=
  let normalize := fun (s : String) =>
    strReplace (strReplace (strReplace s "&" "") "->" ".") " " ""
  normalize var1 = normalize var2

/-- find_triggers embeds AsyncTracker::find_triggers: a trigger line whose
first capture group fails to match the bound variable is skipped; an absent
group or an empty bound variable accepts the line. -/
def find_triggers (source : String) (patterns : List (String → Option Captures))
    (variable_ : String) : List Location :=
  patterns.flatMap (fun trigger_re =>
    (linesOf source).enum.filterMap (fun le =>
      match trigger_re le.2 with
      | some caps =>
        let ok :=
          if ¬ variable_.isEmpty then
            match capGet caps 1 with
            | some var_match => variables_match variable_ var_match
            | none => true
          else true
        if ok then some (Location.new "" (le.1 + 1) 0) else none
      | none => none))

/-- analyze embeds AsyncTracker::analyze: for every pattern, bind regex and
source line with captures, the handler is the last capture and the variable
the first (when more than one group exists); a binding is kept only when the
handler is non-empty, not the literal NULL, and a known function.  The bind
location file is always the empty string. -/
def analyze (patterns : List AsyncPattern) (source : String)
    (functions : List (String × FunctionDef)) : List AsyncBinding :=
  patterns.flatMap (fun pattern =>
    pattern.bind_patterns.flatMap (fun bind_re =>
      (linesOf source).enum.filterMap (fun le =>
        match bind_re le.2 with
        | some caps =>
          let handler := (capGet caps (caps.length - 1)).getD ""
          let variable_ := if caps.length > 2 then (capGet caps 1).getD "" else ""
          if ¬ handler.isEmpty ∧ handler ≠ "NULL" ∧ (assocGet functions handler).isSome then
            some
              { mechanism := pattern.mechanism
                variable_ := variable_
                handler := handler
                bind_location := some (Location.new "" (le.1 + 1) 0)
                trigger_locations := find_triggers source pattern.trigger_patterns variable_
                context := pattern.context }
          else none
        | none => none)))

/-- bindClassC is the character class [\w\.\->] of the bind regexes: word
characters, dot, hyphen, greater-than. -/
def bindClassC (c : Char) : Bool :=
  isWordC c ∨ c = '.' ∨ c = '-' ∨ c = '>'

/-- tryInitWorkAt matches INIT_WORK\s*\(\s*&?([\w\.\->]+)\s*,\s*(\w+)\s*\)
anchored at the head of l (the first bind pattern of default_patterns). -/
def tryInitWorkAt (l : List Char) : Option Captures := do
  let r1 ← pLit "INIT_WORK".toList l
  let r2 := pWs0 r1
  let r3 ← pChar '(' r2
  let r4 := pWs0 r3
  let r5 := match r4 with
    | '&' :: t => t
    | _ => r4
  let (g1, r6) ← pClass1 bindClassC r5
  let r7 := pWs0 r6
  let r8 ← pChar ',' r7
  let r9 := pWs0 r8
  let (g2, r10) ← pClass1 isWordC r9
  let r11 := pWs0 r10
  let r12 ← pChar ')' r11
  some [some (String.mk (l.take (l.length - r12.length))), some (String.mk g1),
        some (String.mk g2)]

/-- tryScheduleWorkAt matches schedule_work\s*\(\s*&?([\w\.\->]+)\s*\)
anchored at the head of l. -/
def tryScheduleWorkAt (l : List Char) : Option Captures := do
  let r1 ← pLit "schedule_work".toList l
  let r2 := pWs0 r1
  let r3 ← pChar '(' r2
  let r4 := pWs0 r3
  let r5 := match r4 with
    | '&' :: t => t
    | _ => r4
  let (g1, r6) ← pClass1 bindClassC r5
  let r7 := pWs0 r6
  let r8 ← pChar ')' r7
  some [some (String.mk (l.take (l.length - r8.length))), some (String.mk g1)]

/-- tryQueueWorkAt matches queue_work\s*\([^,]+,\s*&?([\w\.\->]+)\s*\)
anchored at the head of l ([^,]+ cannot cross a comma, so the greedy run up
to the first comma is exact). -/
def tryQueueWorkAt (l : List Char) : Option Captures := do
  let r1 ← pLit "queue_work".toList l
  let r2 := pWs0 r1
  let r3 ← pChar '(' r2
  let (_, r4) ← pClass1 (fun c => decide (c ≠ ',')) r3
  let r5 ← pChar ',' r4
  let r6 := pWs0 r5
  let r7 := match r6 with
    | '&' :: t => t
    | _ => r6
  let (g1, r8) ← pClass1 bindClassC r7
  let r9 := pWs0 r8
  let r10 ← pChar ')' r9
  some [some (String.mk (l.take (l.length - r10.length))), some (String.mk g1)]

/-- searchCap turns an anchored matcher into a leftmost search
(Regex::captures). -/
def searchCapAux (tryAt : List Char → Option Captures) : Nat → List Char → Option Captures
  | 0, _ => none
  | fuel + 1, l =>
    match tryAt l with
    | some caps => some caps
    | none =>
      match l with
      | [] => none
      | _ :: rest => searchCapAux tryAt fuel rest

def searchCap (tryAt : List Char → Option Captures) (line : String) : Option Captures :=
  searchCapAux tryAt (line.toList.length + 1) line.toList

def initWorkCapture (line : String) : Option Captures :=
  searchCap tryInitWorkAt line

def scheduleWorkCapture (line : String) : Option Captures :=
  searchCap tryScheduleWorkAt line

def queueWorkCapture (line : String) : Option Captures :=
  searchCap tryQueueWorkAt line

/-- workQueuePattern embeds the first entry of
AsyncTracker::default_patterns (the non-delayed work queue), with its three
regexes modelled above. -/
def workQueuePattern : AsyncPattern :=
  { mechanism := .WorkQueue false
    context := .Process
    bind_patterns := [initWorkCapture]
    trigger_patterns := [scheduleWorkCapture, queueWorkCapture] }

end Async

/-! ## Concrete inputs used by the claims -/

/-- mkFd builds a FunctionDef as the parser would deliver it for a parsed
function with the given name and location. -/
def mkFd (name : String) (loc : Option Location) : FunctionDef :=
  { name := name, return_type := "int", params := [], location := loc, calls := [],
    called_by := [], is_callback := false, callback_context := none, attributes := [] }

/-- c1Source is the ops-table scenario source of the spec:
static int my_open(...)\x7b...\x7d
static const struct file_operations f = \x7b .open = my_open \x7d;. -/
def c1Source : String :=
  "static int my_open(struct inode *i, struct file *f) \x7b return 0; \x7d\nstatic const struct file_operations f = \x7b .open = my_open \x7d;\n"

def c1Functions : List (String × FunctionDef) := [("my_open", mkFd "my_open" none)]

def c1Mappings : List (String × String) :=
  FuncPtr.analyze_ops_tables c1Source c1Functions

def c1Marked : List (String × FunctionDef) :=
  FuncPtr.applyOpsMarkings c1Functions c1Mappings

/-- leafN builds a childless syntax node. -/
def leafN (kind text : String) : CNode := CNode.mk kind text []

/-- c3ArrDecl models the tree-sitter parse of
handler_t arr[] = \x7bh1, h2, h3\x7d; (declaration, init_declarator with an
array_declarator and an initializer_list, anonymous tokens included). -/
def c3ArrDecl : CNode :=
  CNode.mk "declaration" "handler_t arr[] = \x7bh1, h2, h3\x7d;"
    [leafN "type_identifier" "handler_t",
     CNode.mk "init_declarator" "arr[] = \x7bh1, h2, h3\x7d"
       [CNode.mk "array_declarator" "arr[]"
          [leafN "identifier" "arr", leafN "[" "[", leafN "]" "]"],
        leafN "=" "=",
        CNode.mk "initializer_list" "\x7bh1, h2, h3\x7d"
          [leafN "\x7b" "\x7b", leafN "identifier" "h1", leafN "," ",", leafN "identifier" "h2",
           leafN "," ",", leafN "identifier" "h3", leafN "\x7d" "\x7d"]],
     leafN ";" ";"]

/-- c3FuncDef models the tree-sitter parse of an empty function definition. -/
def c3FuncDef (name : String) : CNode :=
  CNode.mk "function_definition" ("void " ++ name ++ "(void) \x7b\x7d")
    [leafN "primitive_type" "void",
     CNode.mk "function_declarator" (name ++ "(void)")
       [leafN "identifier" name,
        CNode.mk "parameter_list" "(void)"
          [leafN "(" "(", leafN "primitive_type" "void", leafN ")" ")"]],
     CNode.mk "compound_statement" "\x7b\x7d" [leafN "\x7b" "\x7b", leafN "\x7d" "\x7d"]]

/-- c3Dispatch models the tree-sitter parse of
void dispatch(int i) \x7b arr[i](); \x7d. -/
def c3Dispatch : CNode :=
  CNode.mk "function_definition" "void dispatch(int i) \x7b arr[i](); \x7d"
    [leafN "primitive_type" "void",
     CNode.mk "function_declarator" "dispatch(int i)"
       [leafN "identifier" "dispatch",
        CNode.mk "parameter_list" "(int i)"
          [leafN "(" "(",
           CNode.mk "parameter_declaration" "int i"
             [leafN "primitive_type" "int", leafN "identifier" "i"],
           leafN ")" ")"]],
     CNode.mk "compound_statement" "\x7b arr[i](); \x7d"
       [leafN "\x7b" "\x7b",
        CNode.mk "expression_statement" "arr[i]();"
          [CNode.mk "call_expression" "arr[i]()"
            [CNode.mk "subscript_expression" "arr[i]"
              [leafN "identifier" "arr", leafN "[" "[", leafN "identifier" "i", leafN "]" "]"],
             CNode.mk "argument_list" "()" [leafN "(" "(", leafN ")" ")"]],
           leafN ";" ";"],
        leafN "\x7d" "\x7d"]]

/-- c3Root is the translation unit for the array-dispatch scenario
arr[] = \x7bh1, h2, h3\x7d; arr[i](); with h1, h2, h3 known functions. -/
def c3Root : CNode :=
  CNode.mk "translation_unit" ""
    [c3FuncDef "h1", c3FuncDef "h2", c3FuncDef "h3", c3ArrDecl, c3Dispatch]

def c3Constraints : List Andersen.Constraint :=
  Collector.collectFromTree ["h1", "h2", "h3"] c3Root

/-- cpRange is the propagator state with x bound to Range 0 100. -/
def cpRange : ConstantPropagator :=
  ConstantPropagator.init_from_bindings [("x", SymbolicValue.Range 0 100)]

/-- cpNullPtr binds ptr to a null pointer, cpValidPtr to a non-null one. -/
def cpNullPtr : ConstantPropagator :=
  ConstantPropagator.init_from_bindings [("ptr", SymbolicValue.Pointer true none)]

def cpValidPtr : ConstantPropagator :=
  ConstantPropagator.init_from_bindings [("ptr", SymbolicValue.Pointer false none)]

/-- c7Leaf builds a childless flow node named as given. -/
def c7Leaf (id name : String) (line : Nat) : FlowNode :=
  FlowNode.mk id name (name ++ "()") (some (Location.new "test.c" line 0)) FlowNodeType.Function
    [] none none (some ExecutionContext.Process) (some true) none false

/-- c7Tree is the flow tree of the null-check scenario: check_ptr with the
children if_ptr_null and if_ptr_valid. -/
def c7Tree : FlowNode :=
  FlowNode.mk "1" "check_ptr" "check_ptr()" (some (Location.new "test.c" 1 0))
    FlowNodeType.Function [c7Leaf "2" "if_ptr_null" 2, c7Leaf "3" "if_ptr_valid" 5]
    none none (some ExecutionContext.Process) (some true) none false

/-- c7ScenarioDef binds ptr to a null pointer with default options. -/
def c7ScenarioDef : ScenarioDef :=
  { name := "null_test"
    entry_function := "check_ptr"
    bindings := [{ path := "ptr", value := SymbolicValue.Pointer true none }]
    options := defaultScenarioOptions }

/-- c5Source is a one-line INIT_WORK bind. -/
def c5Source : String := "INIT_WORK(&w, h);"

/-- c5Functions holds the handler h, parsed from file test.c. -/
def c5Functions : List (String × FunctionDef) :=
  [("h", mkFd "h" (some (Location.new "test.c" 2 0)))]

def c5Bindings : List AsyncBinding :=
  Async.analyze [Async.workQueuePattern] c5Source c5Functions

/-- c5Binding is the single binding the tracker returns on c5Source. -/
def c5Binding : AsyncBinding :=
  { mechanism := .WorkQueue false, variable_ := "w", handler := "h",
    bind_location := some (Location.new "" 1 0), trigger_locations := [],
    context := .Process }

/-- chainName yields pairwise distinct variable names x, xI, xII, ... for the
long-copy-chain input. -/
def chainName (j : Nat) : String :=
  String.mk ('x' :: List.replicate j 'I')

/-- chainCopies m is the copy chain processed in reverse dependency order:
Copy(x_m ← x_\x7bm-1\x7d), ..., Copy(x_1 ← x_0). -/
def chainCopies : Nat → List Andersen.Constraint
  | 0 => []
  | m + 1 =>
    .Copy (.Variable (chainName (m + 1))) (.Variable (chainName m)) :: chainCopies m

/-- chainCs is a constraint set whose fixed point needs 1001 propagation
passes: 1001 copies in reverse order followed by AddressOf(x_0, f). -/
def chainCs : List Andersen.Constraint :=
  chainCopies 1001 ++ [.AddressOf (.Variable (chainName 0)) (.Function "f")]

/-- chainPts k is the points-to map in which x_0 ... x_k point to f. -/
def chainPts (k : Nat) : String → List String :=
  fun key => if key ∈ (List.range (k + 1)).map chainName then ["f"] else []

/-- chainState k is the solver state after k passes on chainCs. -/
def chainState (k : Nat) : Andersen.Solver :=
  { constraints := chainCs
    pts := chainPts k
    worklist := [chainName 0]
    changed := if k = 0 then [] else [chainName k] }

/-! ## Helper lemmas -/


theorem range_lt_spec (min max val : Int) (h : min ≤ max) :
    (ConstantPropagator.eval_range_comparison min max "<" val = .AlwaysTrue ↔
      ∀ n, min ≤ n → n ≤ max → n < val) ∧
    (ConstantPropagator.eval_range_comparison min max "<" val = .AlwaysFalse ↔
      ∀ n, min ≤ n → n ≤ max → ¬ n < val) ∧
    (ConstantPropagator.eval_range_comparison min max "<" val = .Unknown ↔
      (∃ n, min ≤ n ∧ n ≤ max ∧ n < val) ∧ (∃ n, min ≤ n ∧ n ≤ max ∧ ¬ n < val)) := by
  have e : ConstantPropagator.eval_range_comparison min max "<" val =
      if max < val then .AlwaysTrue else if min ≥ val then .AlwaysFalse else .Unknown := rfl
  rw [e]
  split_ifs with h1 h2
  · refine ⟨⟨fun _ n h3 h4 => by omega, fun _ => rfl⟩, ?_, ?_⟩
    · constructor
      · intro hc; cases hc
      · intro hall; exact absurd (hall min le_rfl h) (by omega)
    · constructor
      · intro hc; cases hc
      · rintro ⟨-, n, h3, h4, h5⟩; exact absurd h5 (by omega)
  · refine ⟨?_, ⟨fun _ n h3 h4 => by omega, fun _ => rfl⟩, ?_⟩
    · constructor
      · intro hc; cases hc
      · intro hall; exact absurd (hall min le_rfl h) (by omega)
    · constructor
      · intro hc; cases hc
      · rintro ⟨⟨n, h3, h4, h5⟩, -⟩; exact absurd h5 (by omega)
  · refine ⟨?_, ?_, ⟨fun _ => ?_, fun _ => rfl⟩⟩
    · constructor
      · intro hc; cases hc
      · intro hall; exact absurd (hall max h le_rfl) (by omega)
    · constructor
      · intro hc; cases hc
      · intro hall; exact absurd (hall min le_rfl h) (by omega)
    all_goals exact ⟨⟨min, le_rfl, h, by omega⟩, ⟨max, h, le_rfl, by omega⟩⟩


theorem walk_false_states (cp : ConstantPropagator) (opts : ScenarioOptions) :
    ∀ fuel node depth s, s ∈ (ScenarioExecutor.walk_tree cp opts fuel node depth false).2 →
      s.reachable = false := by
  intro fuel
  induction fuel with
  | zero => intro node depth s hs; simp [ScenarioExecutor.walk_tree] at hs
  | succ n ih =>
    intro node depth s hs
    rw [ScenarioExecutor.walk_tree] at hs
    by_cases hd : depth > opts.max_depth
    · rw [if_pos hd] at hs; simp at hs
    · rw [if_neg hd] at hs
      simp only [List.mem_cons, List.map_map, List.mem_flatten, List.mem_map,
        Function.comp] at hs
      rcases hs with rfl | ⟨l, ⟨child, hchild, rfl⟩, hsl⟩
      · rfl
      · simp only [Bool.false_eq_true, if_false] at hsl
        exact ih child (depth + 1) s hsl

theorem walk_head_state (cp : ConstantPropagator) (opts : ScenarioOptions)
    (fuel : Nat) (node : FlowNode) (depth : Nat) (r : Bool) (hd : depth ≤ opts.max_depth) :
    ∃ st rest, (ScenarioExecutor.walk_tree cp opts (fuel + 1) node depth r).2 = st :: rest ∧
      st.reachable = r := by
  rw [ScenarioExecutor.walk_tree, if_neg (by omega)]
  exact ⟨_, _, rfl, rfl⟩

theorem walk_true_children (cp : ConstantPropagator) (opts : ScenarioOptions)
    (fuel : Nat) (node : FlowNode) (depth : Nat) (hd : depth ≤ opts.max_depth) :
    (ScenarioExecutor.walk_tree cp opts (fuel + 1) node depth true).2 =
      { location := node.location.getD default, function := node.name,
        variables_ := cp.vars, branch_condition := none, reachable := true } ::
      ((node.children.filter (ScenarioExecutor.childFilter opts)).map
        (fun c => (ScenarioExecutor.walk_tree cp opts fuel c (depth + 1)
          (ScenarioExecutor.check_branch_reachability cp c)).2)).flatten := by
  rw [ScenarioExecutor.walk_tree, if_neg (by omega)]
  simp [List.map_map, Function.comp_def]

theorem check_branch_false_iff (cp : ConstantPropagator) (node : FlowNode) :
    ScenarioExecutor.check_branch_reachability cp node = false ↔
      ((strContains node.name "if_" = true ∨ strContains node.name "_check" = true) ∧
       ∃ cond, ScenarioExecutor.extract_condition node.name = some cond ∧
         cp.eval_condition cond = .AlwaysFalse) := by
  rw [ScenarioExecutor.check_branch_reachability]
  by_cases hg : strContains node.name "if_" = true ∨ strContains node.name "_check" = true
  · rw [if_pos hg]
    cases hx : ScenarioExecutor.extract_condition node.name with
    | none => simp [hx]
    | some cond =>
      cases he : ConstantPropagator.eval_condition cp cond with
      | AlwaysTrue => simp [hx, he]
      | AlwaysFalse => simp [hx, he, hg]
      | Unknown => simp [hx, he]
  · rw [if_neg hg]
    simp [hg]


namespace Andersen

theorem setInsert_ne_nil (l : List String) (x : String) : setInsert l x ≠ [] := by
  rw [setInsert]
  split
  · rename_i h
    intro hnil
    rw [hnil] at h
    simp at h
  · simp

theorem union_pts_constraints (s : Solver) (d sr : String) :
    (union_pts s d sr).constraints = s.constraints := by
  simp only [union_pts]
  split <;> rfl

theorem add_to_pts_constraints (s : Solver) (l t : String) :
    (add_to_pts s l t).constraints = s.constraints := by
  simp only [add_to_pts]
  split <;> rfl

theorem foldl_constraints {α : Type} (f : Solver → α → Solver)
    (hf : ∀ s a, (f s a).constraints = s.constraints) :
    ∀ (l : List α) (s : Solver), (l.foldl f s).constraints = s.constraints := by
  intro l
  induction l with
  | nil => intro s; rfl
  | cons a l ih => intro s; rw [List.foldl_cons, ih, hf]

theorem process_constraints (s : Solver) (c : Constraint) :
    (process_constraint s c).constraints = s.constraints := by
  cases c with
  | AddressOf p t => rfl
  | Copy d sr => exact union_pts_constraints ..
  | Load d sp =>
    exact foldl_constraints _ (fun st a => union_pts_constraints st (loc_key d) a) _ _
  | Store dp sr =>
    exact foldl_constraints _ (fun st a => union_pts_constraints st a (loc_key sr)) _ _
  | FieldLoad d bp field =>
    exact foldl_constraints _ (fun st a => union_pts_constraints st (loc_key d) (a ++ "." ++ field)) _ _
  | FieldStore bp field sr =>
    exact foldl_constraints _ (fun st a => union_pts_constraints st (a ++ "." ++ field) (loc_key sr)) _ _
  | ArrayStore arr sr => exact add_to_pts_constraints ..
  | ArrayLoad d arr => exact union_pts_constraints ..

theorem solvePass_constraints (s : Solver) : (solvePass s).constraints = s.constraints := by
  rw [solvePass]
  exact foldl_constraints _ process_constraints _ _

theorem solveGo_constraints : ∀ (fuel : Nat) (s : Solver),
    (solveGo fuel s).constraints = s.constraints := by
  intro fuel
  induction fuel with
  | zero => intro s; rfl
  | succ n ih =>
    intro s
    rw [solveGo]
    split
    · exact solvePass_constraints s
    · rw [ih, solvePass_constraints]

theorem union_pts_changed_nil (s : Solver) (d sr : String)
    (h : (union_pts s d sr).changed = []) : union_pts s d sr = s := by
  simp only [union_pts] at h ⊢
  split
  · rfl
  · rename_i hne
    rw [if_neg hne] at h
    exact absurd h (setInsert_ne_nil s.changed d)

theorem add_to_pts_changed_nil (s : Solver) (l t : String)
    (h : (add_to_pts s l t).changed = []) : add_to_pts s l t = s := by
  simp only [add_to_pts] at h ⊢
  split
  · rfl
  · rename_i hne
    rw [if_neg hne] at h
    exact absurd h (setInsert_ne_nil s.changed l)

theorem foldl_changed_nil {α : Type} (f : Solver → α → Solver)
    (hf : ∀ s a, (f s a).changed = [] → f s a = s) :
    ∀ (l : List α) (s : Solver), (l.foldl f s).changed = [] →
      l.foldl f s = s ∧ ∀ a ∈ l, f s a = s := by
  intro l
  induction l with
  | nil => intro s _; exact ⟨rfl, by simp⟩
  | cons a l ih =>
    intro s h
    rw [List.foldl_cons] at h
    obtain ⟨hfold, hall⟩ := ih (f s a) h
    have hstep : (f s a).changed = [] := by rw [← hfold]; exact h
    have hid : f s a = s := hf s a hstep
    rw [hid] at hfold hall
    refine ⟨by rw [List.foldl_cons, hid]; exact hfold, ?_⟩
    intro b hb
    rcases List.mem_cons.mp hb with rfl | hb'
    · exact hid
    · exact hall b hb'

theorem process_changed_nil (s : Solver) (c : Constraint)
    (h : (process_constraint s c).changed = []) : process_constraint s c = s := by
  cases c with
  | AddressOf p t => rfl
  | Copy d sr => exact union_pts_changed_nil _ _ _ h
  | Load d sp =>
    exact (foldl_changed_nil _ (fun st a => union_pts_changed_nil st (loc_key d) a) _ _ h).1
  | Store dp sr =>
    exact (foldl_changed_nil _ (fun st a => union_pts_changed_nil st a (loc_key sr)) _ _ h).1
  | FieldLoad d bp field =>
    exact (foldl_changed_nil _
      (fun st a => union_pts_changed_nil st (loc_key d) (a ++ "." ++ field)) _ _ h).1
  | FieldStore bp field sr =>
    exact (foldl_changed_nil _
      (fun st a => union_pts_changed_nil st (a ++ "." ++ field) (loc_key sr)) _ _ h).1
  | ArrayStore arr sr => exact add_to_pts_changed_nil _ _ _ h
  | ArrayLoad d arr => exact union_pts_changed_nil _ _ _ h

theorem solvePass_changed_nil (s : Solver) (h : (solvePass s).changed = []) :
    solvePass s = { s with changed := [] } ∧
    ∀ c ∈ s.constraints,
      process_constraint { s with changed := [] } c = { s with changed := [] } := by
  rw [solvePass] at h ⊢
  exact foldl_changed_nil _ process_changed_nil _ _ h

theorem solvePass_changed_nil_pts (s : Solver) (h : (solvePass s).changed = []) :
    (solvePass s).pts = s.pts := by
  rw [(solvePass_changed_nil s h).1]

theorem union_pts_mono (s : Solver) (d sr k x : String) (h : x ∈ s.pts k) :
    x ∈ (union_pts s d sr).pts k := by
  simp only [union_pts]
  split
  · exact h
  · by_cases hk : k = d
    · subst hk
      simp only [Function.update_same]
      exact List.mem_append_left _ h
    · simp only [Function.update_noteq hk]
      exact h

theorem add_to_pts_mono (s : Solver) (l t k x : String) (h : x ∈ s.pts k) :
    x ∈ (add_to_pts s l t).pts k := by
  simp only [add_to_pts]
  split
  · exact h
  · by_cases hk : k = l
    · subst hk
      simp only [Function.update_same]
      exact List.mem_append_left _ h
    · simp only [Function.update_noteq hk]
      exact h

theorem foldl_pts_mono {α : Type} (f : Solver → α → Solver)
    (hf : ∀ s a k x, x ∈ s.pts k → x ∈ (f s a).pts k) :
    ∀ (l : List α) (s : Solver) (k x : String), x ∈ s.pts k → x ∈ (l.foldl f s).pts k := by
  intro l
  induction l with
  | nil => intro s k x h; exact h
  | cons a l ih =>
    intro s k x h
    rw [List.foldl_cons]
    exact ih (f s a) k x (hf s a k x h)

theorem process_pts_mono (s : Solver) (c : Constraint) (k x : String) (h : x ∈ s.pts k) :
    x ∈ (process_constraint s c).pts k := by
  cases c with
  | AddressOf p t => exact h
  | Copy d sr => exact union_pts_mono _ _ _ _ _ h
  | Load d sp =>
    exact foldl_pts_mono _ (fun st a k x h => union_pts_mono st (loc_key d) a k x h) _ _ _ _ h
  | Store dp sr =>
    exact foldl_pts_mono _ (fun st a k x h => union_pts_mono st a (loc_key sr) k x h) _ _ _ _ h
  | FieldLoad d bp field =>
    exact foldl_pts_mono _
      (fun st a k x h => union_pts_mono st (loc_key d) (a ++ "." ++ field) k x h) _ _ _ _ h
  | FieldStore bp field sr =>
    exact foldl_pts_mono _
      (fun st a k x h => union_pts_mono st (a ++ "." ++ field) (loc_key sr) k x h) _ _ _ _ h
  | ArrayStore arr sr => exact add_to_pts_mono _ _ _ _ _ h
  | ArrayLoad d arr => exact union_pts_mono _ _ _ _ _ h

theorem solvePass_pts_mono (s : Solver) (k x : String) (h : x ∈ s.pts k) :
    x ∈ (solvePass s).pts k := by
  rw [solvePass]
  exact foldl_pts_mono _ process_pts_mono _ _ _ _ h

theorem solveGo_pts_mono : ∀ (fuel : Nat) (s : Solver) (k x : String),
    x ∈ s.pts k → x ∈ (solveGo fuel s).pts k := by
  intro fuel
  induction fuel with
  | zero => intro s k x h; exact h
  | succ n ih =>
    intro s k x h
    rw [solveGo]
    split
    · exact solvePass_pts_mono s k x h
    · exact ih _ k x (solvePass_pts_mono s k x h)

theorem initStep_pts_mono (s : Solver) (c : Constraint) (k x : String) (h : x ∈ s.pts k) :
    x ∈ (initStep s c).pts k := by
  cases c with
  | AddressOf p t =>
    simp only [initStep]
    by_cases hk : k = loc_key p
    · subst hk
      simp only [Function.update_same]
      rw [setInsert]
      split
      · exact h
      · exact List.mem_append_left _ h
    · simp only [Function.update_noteq hk]
      exact h
  | Copy d sr => exact h
  | Load d sp => exact h
  | Store dp sr => exact h
  | FieldLoad d bp field => exact h
  | FieldStore bp field sr => exact h
  | ArrayStore arr sr => exact h
  | ArrayLoad d arr => exact h

theorem mem_setInsert_self (l : List String) (x : String) : x ∈ setInsert l x := by
  rw [setInsert]
  split
  · assumption
  · exact List.mem_append_right _ (List.mem_singleton.mpr rfl)

theorem initStep_mem_self (s : Solver) (p t : Location) :
    loc_key t ∈ (initStep s (.AddressOf p t)).pts (loc_key p) := by
  simp only [initStep, Function.update_same]
  exact mem_setInsert_self _ _

theorem foldl_initStep_mem (p t : Location) :
    ∀ (cs : List Constraint) (s : Solver), Constraint.AddressOf p t ∈ cs →
      loc_key t ∈ (cs.foldl initStep s).pts (loc_key p) := by
  intro cs
  induction cs with
  | nil => intro s h; simp at h
  | cons c cs ih =>
    intro s h
    rw [List.foldl_cons]
    rcases List.mem_cons.mp h with rfl | h'
    · exact foldl_pts_mono _ initStep_pts_mono cs _ _ _ (initStep_mem_self s p t)
    · exact ih _ h'

theorem init_mem (s : Solver) (p t : Location)
    (h : Constraint.AddressOf p t ∈ s.constraints) :
    loc_key t ∈ (initFromAddressOf s).pts (loc_key p) := by
  rw [initFromAddressOf]
  exact foldl_initStep_mem p t _ s h

theorem passIter_succ (k : Nat) (s : Solver) :
    passIter (k + 1) s = passIter k (solvePass s) := rfl

/-- solveGo stops at the first pass with empty changed, or at the fuel cap. -/
theorem solveGo_spec : ∀ (fuel : Nat) (s : Solver),
    ∃ k, 1 ≤ k ∧ k ≤ fuel + 1 ∧ solveGo (fuel + 1) s = passIter k s ∧
      ((passIter k s).changed = [] ∨ k = fuel + 1) ∧
      (∀ j, 1 ≤ j → j < k → (passIter j s).changed ≠ []) := by
  intro fuel
  induction fuel with
  | zero =>
    intro s
    refine ⟨1, le_rfl, le_rfl, ?_, ?_, ?_⟩
    · rw [solveGo]
      split
      · rfl
      · rfl
    · by_cases h : (solvePass s).changed = []
      · exact Or.inl h
      · exact Or.inr rfl
    · intro j h1 h2; omega
  | succ n ih =>
    intro s
    by_cases h : (solvePass s).changed = []
    · refine ⟨1, le_rfl, by omega, ?_, Or.inl h, ?_⟩
      · rw [solveGo]
        split
        · rfl
        · exact absurd h (by assumption)
      · intro j h1 h2; omega
    · obtain ⟨k, hk1, hk2, hk3, hk4, hk5⟩ := ih (solvePass s)
      refine ⟨k + 1, by omega, by omega, ?_, ?_, ?_⟩
      · rw [solveGo]
        split
        · exact absurd (by assumption) h
        · rw [hk3, passIter_succ]
      · rw [passIter_succ]
        rcases hk4 with h4 | h4
        · exact Or.inl h4
        · exact Or.inr (by omega)
      · intro j h1 h2
        match j, h1 with
        | 1, _ => exact h
        | (m + 2), _ =>
          rw [passIter_succ]
          exact hk5 (m + 1) (by omega) (by omega)

/-- solveGo with positive fuel always ends with a solvePass application. -/
theorem solveGo_is_pass : ∀ (fuel : Nat) (s : Solver),
    ∃ p, solveGo (fuel + 1) s = solvePass p ∧ p.constraints = s.constraints := by
  intro fuel
  induction fuel with
  | zero =>
    intro s
    refine ⟨s, ?_, rfl⟩
    rw [solveGo]
    split
    · rfl
    · rfl
  | succ n ih =>
    intro s
    by_cases h : (solvePass s).changed = []
    · refine ⟨s, ?_, rfl⟩
      rw [solveGo]
      split
      · rfl
      · exact absurd h (by assumption)
    · obtain ⟨p, hp1, hp2⟩ := ih (solvePass s)
      refine ⟨p, ?_, by rw [hp2, solvePass_constraints]⟩
      rw [solveGo]
      split
      · exact absurd (by assumption) h
      · exact hp1

theorem union_pts_eq_subset (s : Solver) (d sr : String) (h : union_pts s d sr = s) :
    ∀ x ∈ s.pts sr, x ∈ s.pts d := by
  intro x hx
  by_cases he : ((s.pts sr).filter (fun t => decide (t ∉ s.pts d))).isEmpty
  · have := List.filter_eq_nil_iff.mp (List.isEmpty_iff.mp he) x hx
    simpa using this
  · exfalso
    have hpts := congrArg Solver.pts h
    simp only [union_pts] at hpts
    rw [if_neg he] at hpts
    have happ := congrFun hpts d
    simp only [Function.update_same] at happ
    have hlen := congrArg List.length happ
    simp only [List.length_append] at hlen
    have hnil : ((s.pts sr).filter (fun t => decide (t ∉ s.pts d))) = [] :=
      List.eq_nil_of_length_eq_zero (by omega)
    rw [List.isEmpty_iff] at he
    exact he hnil

theorem initStep_constraints (s : Solver) (c : Constraint) :
    (initStep s c).constraints = s.constraints := by
  cases c <;> simp [initStep]

theorem solve_constraints (cs : List Constraint) : (solve cs).constraints = cs := by
  rw [solve, max_iterations, solveStart]
  rw [solveGo_constraints]
  rw [initFromAddressOf]
  rw [foldl_constraints _ initStep_constraints]
  rfl

end Andersen

section
open Andersen

theorem loc_key_var (n : String) : loc_key (Location.Variable n) = n := rfl



theorem chainName_inj {i j : Nat} (h : chainName i = chainName j) : i = j := by
  rw [chainName, chainName] at h
  have h2 : ('x' :: List.replicate i 'I') = ('x' :: List.replicate j 'I') := by
    have := congrArg String.toList h
    simpa using this
  have h3 := congrArg List.length h2
  simpa using h3

theorem chainPts_name (k m : Nat) :
    chainPts k (chainName m) = if m ≤ k then ["f"] else [] := by
  rw [chainPts]
  by_cases h : m ≤ k
  · rw [if_pos h, if_pos]
    exact List.mem_map.mpr ⟨m, List.mem_range.mpr (by omega), rfl⟩
  · rw [if_neg h, if_neg]
    intro hmem
    obtain ⟨j, hj, hje⟩ := List.mem_map.mp hmem
    have := chainName_inj hje
    rw [List.mem_range] at hj
    omega

theorem chainPts_update (k : Nat) :
    Function.update (chainPts k) (chainName (k + 1)) ["f"] = chainPts (k + 1) := by
  funext key
  by_cases hk : key = chainName (k + 1)
  · subst hk
    rw [Function.update_same, chainPts_name]
    simp
  · rw [Function.update_noteq hk, chainPts, chainPts]
    by_cases hmem : key ∈ (List.range (k + 1)).map chainName
    · rw [if_pos hmem, if_pos]
      obtain ⟨j, hj, hje⟩ := List.mem_map.mp hmem
      exact List.mem_map.mpr ⟨j, List.mem_range.mpr (by rw [List.mem_range] at hj; omega), hje⟩
    · rw [if_neg hmem, if_neg]
      intro hmem2
      obtain ⟨j, hj, hje⟩ := List.mem_map.mp hmem2
      rw [List.mem_range] at hj
      have hjk : j ≤ k + 1 := by omega
      rcases Nat.lt_or_ge j (k + 1) with hlt | hge
      · exact hmem (List.mem_map.mpr ⟨j, List.mem_range.mpr hlt, hje⟩)
      · have : j = k + 1 := by omega
        subst this
        exact hk hje.symm

/-- One pass over the reversed copy chain starting from chainPts k fires
exactly the copy x_\x7bk+1\x7d ← x_k (when it is in range) and nothing else. -/
theorem chain_fold (CS : List Constraint) (W : List String) :
    ∀ (m k : Nat) (c : List String),
      (chainCopies m).foldl process_constraint
        { constraints := CS, pts := chainPts k, worklist := W, changed := c } =
      { constraints := CS, pts := chainPts (if k < m then k + 1 else k), worklist := W,
        changed := if k < m then setInsert c (chainName (k + 1)) else c } := by
  intro m
  induction m with
  | zero =>
    intro k c
    simp [chainCopies]
  | succ n ih =>
    intro k c
    rw [chainCopies, List.foldl_cons]
    have hproc : process_constraint
        { constraints := CS, pts := chainPts k, worklist := W, changed := c }
        (.Copy (.Variable (chainName (n + 1))) (.Variable (chainName n))) =
        union_pts { constraints := CS, pts := chainPts k, worklist := W, changed := c }
          (chainName (n + 1)) (chainName n) := rfl
    rw [hproc]
    rcases Nat.lt_trichotomy n k with hlt | heq | hgt
    · -- n < k: both source and dest already hold f; no growth
      have hu : union_pts { constraints := CS, pts := chainPts k, worklist := W, changed := c }
          (chainName (n + 1)) (chainName n) =
          { constraints := CS, pts := chainPts k, worklist := W, changed := c } := by
        simp only [union_pts, chainPts_name, if_pos (show n ≤ k by omega),
          if_pos (show n + 1 ≤ k by omega)]
        simp
      rw [hu, ih k c]
      have h1 : ¬ k < n := by omega
      have h2 : ¬ k < n + 1 := by omega
      rw [if_neg h1, if_neg h1, if_neg h2, if_neg h2]
    · -- n = k: the copy fires
      subst heq
      have hu : union_pts { constraints := CS, pts := chainPts n, worklist := W, changed := c }
          (chainName (n + 1)) (chainName n) =
          { constraints := CS, pts := chainPts (n + 1), worklist := W,
            changed := setInsert c (chainName (n + 1)) } := by
        simp only [union_pts, chainPts_name, if_pos (le_refl n),
          if_neg (show ¬ n + 1 ≤ n by omega)]
        simp only [List.not_mem_nil, not_false_eq_true, decide_True, List.filter_cons,
          List.filter_nil, List.isEmpty_cons, List.nil_append]
        rw [if_neg (by simp)]
        simp only [if_true]
        rw [chainPts_update n]
      rw [hu, ih (n + 1) (setInsert c (chainName (n + 1)))]
      have h1 : ¬ n + 1 < n := by omega
      have h2 : n < n + 1 := by omega
      rw [if_neg h1, if_neg h1, if_pos h2, if_pos h2]
    · -- n > k: the source set is still empty; no growth
      have hu : union_pts { constraints := CS, pts := chainPts k, worklist := W, changed := c }
          (chainName (n + 1)) (chainName n) =
          { constraints := CS, pts := chainPts k, worklist := W, changed := c } := by
        simp only [union_pts, chainPts_name, if_neg (show ¬ n ≤ k by omega)]
        simp
      rw [hu, ih k c]
      have h1 : k < n := by omega
      have h2 : k < n + 1 := by omega
      rw [if_pos h1, if_pos h1, if_pos h2, if_pos h2]

theorem chainCopies_init_skip :
    ∀ (m : Nat) (s : Solver), (chainCopies m).foldl initStep s = s := by
  intro m
  induction m with
  | zero => intro s; rfl
  | succ n ih =>
    intro s
    rw [chainCopies, List.foldl_cons]
    have : initStep s (.Copy (.Variable (chainName (n + 1))) (.Variable (chainName n))) = s := rfl
    rw [this, ih]

theorem chainPts_zero :
    Function.update (fun _ => ([] : List String)) (chainName 0) ["f"] = chainPts 0 := by
  funext key
  by_cases hk : key = chainName 0
  · subst hk
    rw [Function.update_same, chainPts_name]
    simp
  · rw [Function.update_noteq hk, chainPts]
    rw [if_neg]
    intro hmem
    obtain ⟨j, hj, hje⟩ := List.mem_map.mp hmem
    rw [List.mem_range] at hj
    have : j = 0 := by omega
    subst this
    exact hk hje.symm

theorem chain_init : solveStart chainCs = chainState 0 := by
  rw [solveStart, initFromAddressOf]
  rw [show (add_constraints Solver.new chainCs).constraints = chainCs by
    simp [add_constraints, Solver.new]]
  simp only [chainCs]
  rw [List.foldl_append, chainCopies_init_skip]
  simp only [List.foldl_cons, List.foldl_nil]
  simp only [initStep, add_constraints, Solver.new, chainState, loc_key, Solver.mk.injEq]
  refine ⟨by simp [chainCs], ?_, by simp, by simp⟩
  rw [show (setInsert ([] : List String) "f") = ["f"] by simp [setInsert]]
  exact chainPts_zero

theorem chain_pass (k : Nat) (hk : k < 1001) :
    solvePass (chainState k) = chainState (k + 1) := by
  rw [solvePass]
  have h0 : ({ chainState k with changed := ([] : List String) } : Solver) =
      { constraints := chainCs, pts := chainPts k, worklist := [chainName 0],
        changed := [] } := by
    simp [chainState]
  have h1 : (chainState k).constraints = chainCopies 1001 ++
      [Constraint.AddressOf (Location.Variable (chainName 0)) (Location.Function "f")] := rfl
  rw [h0, h1, List.foldl_append, chain_fold]
  rw [if_pos hk, if_pos hk]
  simp only [List.foldl_cons, List.foldl_nil]
  have h2 : ∀ s : Solver, process_constraint s
      (Constraint.AddressOf (Location.Variable (chainName 0)) (Location.Function "f")) = s :=
    fun s => rfl
  rw [h2]
  rw [show setInsert ([] : List String) (chainName (k + 1)) = [chainName (k + 1)] by
    simp [setInsert]]
  simp only [chainState, chainCs]
  rw [if_neg (show ¬ k + 1 = 0 by omega)]

theorem chain_go : ∀ (fuel k : Nat), k + fuel ≤ 1001 →
    solveGo fuel (chainState k) = chainState (k + fuel) := by
  intro fuel
  induction fuel with
  | zero => intro k _; rfl
  | succ f ih =>
    intro k hk
    simp only [solveGo]
    rw [chain_pass k (by omega)]
    have hne : ¬ (chainState (k + 1)).changed = [] := by
      simp [chainState]
    rw [if_neg hne]
    rw [ih (k + 1) (by omega)]
    congr 1
    omega

theorem chain_solve : solve chainCs = chainState 1000 := by
  have h : solve chainCs = solveGo max_iterations (solveStart chainCs) := rfl
  rw [h, chain_init]
  have h2 : max_iterations = 1000 := rfl
  rw [h2]
  simpa using chain_go 1000 0 (by omega)


end

/-! ## Claim theorems -/

set_option maxRecDepth 4000 in
/-- C1: the ops-table scenario.  The resolver does produce one binding for the
open slot resolved to my_open, and the analyzer marks my_open as a callback;
the recorded context string is "f.open" (the "VAR.field" form built from the
initialised variable), not the "TYPE.field" form the claim states. -/
theorem c1_ops_table_marking :
    c1Mappings = [("f.open", "my_open")] ∧
    c1Marked = [("my_open",
      { name := "my_open", return_type := "int", params := [], location := none,
        calls := [], called_by := [], is_callback := true,
        callback_context := some "f.open", attributes := [] })] :=
  ⟨rfl, rfl⟩

set_option maxRecDepth 4000 in
/-- C1 counterexample: the marked callback context of my_open is "f.open" and
not "file_operations.open". -/
theorem c1_counterexample :
    (assocGet c1Marked "my_open").map FunctionDef.callback_context = some (some "f.open") ∧
    (assocGet c1Marked "my_open").map FunctionDef.callback_context ≠
      some (some "file_operations.open") := by
  refine ⟨rfl, ?_⟩
  decide

/-- C2: the evaluator on the precedence scenario inputs.  With no bindings,
eval "1 << 4 | 2" returns Integer 64 (the splitter finds << before |, giving
1 << (4 | 2)), not the C-precedence 18; eval "0x10 & 0xF0 == 0x10" returns
Bool true (the == split runs before the & split, giving 0x10 & 0xF0 = 0x10),
not the claimed falsy value; the bound comparison id->idVendor == 0x1234 is
Bool true as claimed. -/
theorem c2_evaluator_precedence :
    Evaluator.eval [] "1 << 4 | 2" = .Integer 64 ∧
    Evaluator.eval [] "0x10 & 0xF0 == 0x10" = .Bool true ∧
    Evaluator.eval [("id->idVendor", SymbolicValue.Integer 0x1234)]
      "id->idVendor == 0x1234" = .Bool true :=
  ⟨rfl, rfl, rfl⟩

/-- C2 counterexample: eval "1 << 4 | 2" is not Integer 18, and
eval "0x10 & 0xF0 == 0x10" is not falsy. -/
theorem c2_counterexample :
    Evaluator.eval [] "1 << 4 | 2" ≠ .Integer 18 ∧
    (Evaluator.eval [] "0x10 & 0xF0 == 0x10").is_truthy ≠ some false := by
  refine ⟨?_, ?_⟩ <;> decide

/-- C3: the array-dispatch scenario.  The collector on
arr[] = \x7bh1, h2, h3\x7d; arr[i]() emits exactly three ArrayStore constraints
and one ArrayLoad into __call_from_arr, and after the solver runs, the
points-to set of __call_from_arr is exactly \x7bh1, h2, h3\x7d (the array is the
single abstract cell "arr[]", whose set is the same). -/
theorem c3_array_dispatch :
    c3Constraints =
      [Andersen.Constraint.ArrayStore "arr" (Andersen.Location.Function "h1"),
       Andersen.Constraint.ArrayStore "arr" (Andersen.Location.Function "h2"),
       Andersen.Constraint.ArrayStore "arr" (Andersen.Location.Function "h3"),
       Andersen.Constraint.ArrayLoad (Andersen.Location.Variable "__call_from_arr") "arr"] ∧
    (Andersen.solve c3Constraints).pts "__call_from_arr" = ["h1", "h2", "h3"] ∧
    (Andersen.solve c3Constraints).pts
      (Andersen.loc_key (Andersen.Location.ArrayElement "arr")) = ["h1", "h2", "h3"] :=
  ⟨rfl, rfl, rfl⟩

open Andersen in
/-- C4: solver postconditions as amended.  After solve, every AddressOf
constraint's target is in the pointer's points-to set, unconditionally; the
Copy-subset property holds whenever the final pass changed nothing (the run
converged).  The unconditional Copy-subset property of the claim fails at the
1000-iteration ceiling: see the counterexample. -/
theorem c4_solver_postconditions :
    (∀ (cs : List Constraint) (p t : Andersen.Location), Constraint.AddressOf p t ∈ cs →
      loc_key t ∈ (solve cs).pts (loc_key p)) ∧
    (∀ (cs : List Constraint) (d sr : Andersen.Location), Constraint.Copy d sr ∈ cs →
      (solve cs).changed = [] →
      ∀ x ∈ (solve cs).pts (loc_key sr), x ∈ (solve cs).pts (loc_key d)) := by
  constructor
  · intro cs p t hmem
    rw [solve, max_iterations]
    show loc_key t ∈ (solveGo 1000 (solveStart cs)).pts (loc_key p)
    refine solveGo_pts_mono 1000 _ _ _ ?_
    rw [solveStart]
    refine init_mem _ p t ?_
    simpa [add_constraints, Solver.new] using hmem
  · intro cs d sr hmem hch
    have h1000 : max_iterations = 999 + 1 := rfl
    obtain ⟨p, hp1, hp2⟩ := solveGo_is_pass 999 (solveStart cs)
    have hsolve : solve cs = solvePass p := by rw [solve, h1000, hp1]
    rw [hsolve] at hch ⊢
    obtain ⟨hq, hall⟩ := solvePass_changed_nil p hch
    have hpc : p.constraints = cs := by
      rw [hp2, solveStart, initFromAddressOf]
      rw [foldl_constraints _ initStep_constraints]
      rfl
    have hproc := hall (Constraint.Copy d sr) (by rw [hpc]; exact hmem)
    have huni : union_pts { p with changed := [] } (loc_key d) (loc_key sr) =
        { p with changed := [] } := hproc
    have hsub := union_pts_eq_subset _ _ _ huni
    intro x hx
    rw [hq]
    refine hsub x ?_
    rw [hq] at hx
    exact hx


open Andersen in
/-- C4 counterexample: chainCs (a 1002-variable copy chain ordered against the
propagation direction) needs 1001 passes, one more than max_iterations; solve
stops with Copy(x_1001, x_1000) unsatisfied: f has reached x_1000 but not
x_1001. -/
theorem c4_counterexample :
    Constraint.Copy (Location.Variable (chainName 1001))
        (Location.Variable (chainName 1000)) ∈ chainCs ∧
    "f" ∈ (solve chainCs).pts (loc_key (Location.Variable (chainName 1000))) ∧
    "f" ∉ (solve chainCs).pts (loc_key (Location.Variable (chainName 1001))) := by
  refine ⟨?_, ?_, ?_⟩
  · simp only [chainCs]
    apply List.mem_append.mpr
    left
    have h : chainCopies 1001 =
        Constraint.Copy (Location.Variable (chainName 1001))
          (Location.Variable (chainName 1000)) :: chainCopies 1000 := rfl
    rw [h]
    exact List.mem_cons_self _ _
  · rw [loc_key_var, chain_solve]
    simp only [chainState]
    rw [chainPts_name, if_pos (by omega)]
    simp
  · rw [loc_key_var, chain_solve]
    simp only [chainState]
    rw [chainPts_name, if_neg (by omega)]
    simp

/-- C5: every binding the async tracker returns has a handler that is a key of
the function map and is not the literal "NULL"; but the bind location's file
is always the empty string (Location::new("", line, 0)), never the handler's
file, so the claimed file equality fails whenever the handler's location has a
non-empty file: see the counterexample. -/
theorem c5_async_binding_invariant (patterns : List Async.AsyncPattern) (source : String)
    (functions : List (String × FunctionDef)) (b : AsyncBinding)
    (hb : b ∈ Async.analyze patterns source functions) :
    (assocGet functions b.handler).isSome = true ∧ b.handler ≠ "NULL" ∧
    ∀ loc, b.bind_location = some loc → loc.file = "" := by
  rw [Async.analyze] at hb
  simp only [List.mem_flatMap] at hb
  obtain ⟨pattern, -, bind_re, -, hb⟩ := hb
  rw [List.mem_filterMap] at hb
  obtain ⟨le, -, hle⟩ := hb
  cases hre : bind_re le.2 with
  | none => rw [hre] at hle; exact absurd hle (by simp)
  | some caps =>
    rw [hre] at hle
    dsimp only at hle
    split at hle
    · rename_i hcond
      rw [Option.some.injEq] at hle
      subst hle
      refine ⟨?_, hcond.2.1, ?_⟩
      · simpa using hcond.2.2
      · intro loc hloc
        rw [Option.some.injEq] at hloc
        subst hloc
        rfl
    · exact absurd hle (by simp)

/-- C5 witness: the invariant applied to the INIT_WORK scenario binding. -/
theorem c5_async_binding_invariant_witness :
    (assocGet c5Functions c5Binding.handler).isSome = true ∧ c5Binding.handler ≠ "NULL" ∧
    ∀ loc, c5Binding.bind_location = some loc → loc.file = "" :=
  c5_async_binding_invariant [Async.workQueuePattern] c5Source c5Functions c5Binding
    (by rw [show Async.analyze [Async.workQueuePattern] c5Source c5Functions = [c5Binding]
          from rfl]
        exact List.mem_singleton_self _)

/-- C5 counterexample: the INIT_WORK binding's bind_location file is "" while
the handler h was parsed from "test.c", so the two files differ. -/
theorem c5_counterexample :
    c5Bindings = [c5Binding] ∧
    c5Binding.bind_location = some (Location.new "" 1 0) ∧
    (assocGet c5Functions c5Binding.handler).map FunctionDef.location =
      some (some (Location.new "test.c" 2 0)) ∧
    (Location.new "" 1 0).file ≠ (Location.new "test.c" 2 0).file := by
  refine ⟨rfl, rfl, rfl, ?_⟩
  decide

/-- C6: range and pointer condition classification as amended.  The interval
stage eval_range_comparison does follow interval arithmetic (shown for the
claim's operator <: AlwaysTrue iff every value of [min, max] satisfies it,
AlwaysFalse iff none does, Unknown iff the range straddles), and the fallback
analyze_condition classifies "x < 50" with x = Range 0 100 as Unknown; but
eval_condition consults the evaluator first, which collapses Range 0 100 to
its midpoint 50, so the classification the propagator returns is AlwaysFalse,
not the claimed Unknown.  Pointer null-checks answer definitively from
is_null as claimed. -/
theorem c6_range_condition :
    (∀ min max val : Int, min ≤ max →
      (ConstantPropagator.eval_range_comparison min max "<" val = .AlwaysTrue ↔
        ∀ n, min ≤ n → n ≤ max → n < val) ∧
      (ConstantPropagator.eval_range_comparison min max "<" val = .AlwaysFalse ↔
        ∀ n, min ≤ n → n ≤ max → ¬ n < val) ∧
      (ConstantPropagator.eval_range_comparison min max "<" val = .Unknown ↔
        (∃ n, min ≤ n ∧ n ≤ max ∧ n < val) ∧ (∃ n, min ≤ n ∧ n ≤ max ∧ ¬ n < val))) ∧
    ConstantPropagator.analyze_condition cpRange "x < 50" = .Unknown ∧
    ConstantPropagator.eval_condition cpRange "x < 50" = .AlwaysFalse ∧
    ConstantPropagator.eval_condition cpNullPtr "ptr == NULL" = .AlwaysTrue ∧
    ConstantPropagator.eval_condition cpValidPtr "ptr == NULL" = .AlwaysFalse :=
  ⟨range_lt_spec, rfl, rfl, rfl, rfl⟩

/-- C6 counterexample: with x bound to Range 0 100, the propagator classifies
"x < 50" as AlwaysFalse, not Unknown. -/
theorem c6_counterexample :
    ConstantPropagator.eval_condition cpRange "x < 50" = .AlwaysFalse ∧
    ConstantPropagator.eval_condition cpRange "x < 50" ≠ .Unknown := by
  refine ⟨rfl, ?_⟩
  decide

/-- C7: scenario reachability.  Every state snapshot inside a subtree walked
unreachable is unreachable; a node's branch check is false exactly when its
name carries a condition the environment makes AlwaysFalse (AlwaysTrue and
Unknown keep it true); a walked node's own snapshot carries the reachability
it was entered with; a reachable node walks each child with that child's
branch check; and in the null-pointer scenario, check_ptr and if_ptr_null are
reachable while if_ptr_valid is not. -/
theorem c7_reachability :
    (∀ cp opts fuel node depth s,
        s ∈ (ScenarioExecutor.walk_tree cp opts fuel node depth false).2 →
        s.reachable = false) ∧
    (∀ (cp : ConstantPropagator) (node : FlowNode),
        ScenarioExecutor.check_branch_reachability cp node = false ↔
        ((strContains node.name "if_" = true ∨ strContains node.name "_check" = true) ∧
         ∃ cond, ScenarioExecutor.extract_condition node.name = some cond ∧
           cp.eval_condition cond = .AlwaysFalse)) ∧
    (∀ cp opts fuel node depth r, depth ≤ opts.max_depth →
        ∃ st rest,
          (ScenarioExecutor.walk_tree cp opts (fuel + 1) node depth r).2 = st :: rest ∧
          st.reachable = r) ∧
    (∀ cp opts fuel node depth, depth ≤ opts.max_depth →
        (ScenarioExecutor.walk_tree cp opts (fuel + 1) node depth true).2 =
        { location := node.location.getD default, function := node.name,
          variables_ := cp.vars, branch_condition := none, reachable := true } ::
        ((node.children.filter (ScenarioExecutor.childFilter opts)).map
          (fun c => (ScenarioExecutor.walk_tree cp opts fuel c (depth + 1)
            (ScenarioExecutor.check_branch_reachability cp c)).2)).flatten) ∧
    (ScenarioExecutor.execute c7ScenarioDef c7Tree).states.map
      (fun s => (s.function, s.reachable)) =
      [("check_ptr", true), ("if_ptr_null", true), ("if_ptr_valid", false)] :=
  ⟨walk_false_states,
   check_branch_false_iff,
   fun cp opts fuel node depth r h => walk_head_state cp opts fuel node depth r h,
   fun cp opts fuel node depth h => walk_true_children cp opts fuel node depth h,
   rfl⟩

/-- C8: classify_funcptr_call returns Unknown (with the <unknown> placeholder
target) on an empty target list, Certain carrying the single target on a
one-element list, and Possible carrying all targets on two or more. -/
theorem c8_classify (caller expr : String) (targets : List String) (line : Nat) :
    (targets = [] →
      (Classification.classify_funcptr_call caller expr targets line).overall_confidence =
        .Unknown ∧
      (Classification.classify_funcptr_call caller expr targets line).targets.map
        Classification.ClassifiedTarget.name = ["<unknown>"]) ∧
    (targets.length = 1 →
      (Classification.classify_funcptr_call caller expr targets line).overall_confidence =
        .Certain ∧
      (Classification.classify_funcptr_call caller expr targets line).targets.map
        Classification.ClassifiedTarget.name = targets) ∧
    (2 ≤ targets.length →
      (Classification.classify_funcptr_call caller expr targets line).overall_confidence =
        .Possible ∧
      (Classification.classify_funcptr_call caller expr targets line).targets.map
        Classification.ClassifiedTarget.name = targets) := by
  match targets with
  | [] =>
    refine ⟨fun _ => ⟨rfl, rfl⟩, fun h => by simp at h, fun h => by simp at h⟩
  | [t] =>
    refine ⟨fun h => by simp at h, fun _ => ⟨rfl, rfl⟩, fun h => by simp at h⟩
  | a :: b :: rest =>
    refine ⟨fun h => by simp at h, fun h => by simp at h, fun _ => ?_⟩
    constructor
    · rfl
    · simp [Classification.classify_funcptr_call, Classification.ClassifiedEdge.possible,
        List.map_map, Function.comp_def]

open Andersen in
/-- C9: the solve loop stops at the first pass after which no points-to set
grew (its changed set is empty; such a pass leaves the whole state unchanged
except for clearing changed), or in any case at the max_iterations = 1000
ceiling, so it runs at most 1000 passes on every constraint set. -/
theorem c9_solver_termination :
    (∀ cs : List Constraint, ∃ k, 1 ≤ k ∧ k ≤ max_iterations ∧
      solve cs = passIter k (solveStart cs) ∧
      ((passIter k (solveStart cs)).changed = [] ∨ k = max_iterations) ∧
      (∀ j, 1 ≤ j → j < k → (passIter j (solveStart cs)).changed ≠ [])) ∧
    (∀ s : Solver, (solvePass s).changed = [] → solvePass s = { s with changed := [] }) := by
  constructor
  · intro cs
    obtain ⟨k, h1, h2, h3, h4, h5⟩ := solveGo_spec 999 (solveStart cs)
    exact ⟨k, h1, h2, h3, h4, h5⟩
  · intro s h
    exact (solvePass_changed_nil s h).1

set_option maxRecDepth 4000 in
/-- C10: division and modulo by an evaluated zero return Integer 0: the raw
operators yield 0 on a zero divisor, and the full evaluator on "x / y" and
"x % y" with y bound to 0 returns Integer 0 for every integer x. -/
theorem c10_division_total (a : Int) :
    Evaluator.divOp a 0 = 0 ∧ Evaluator.modOp a 0 = 0 ∧
    Evaluator.eval [("x", SymbolicValue.Integer a), ("y", SymbolicValue.Integer 0)] "x / y" =
      .Integer 0 ∧
    Evaluator.eval [("x", SymbolicValue.Integer a), ("y", SymbolicValue.Integer 0)] "x % y" =
      .Integer 0 := by
  refine ⟨rfl, rfl, rfl, rfl⟩
